import Mathlib

/-
  Verification development for the olive command-line argument parsing
  library.  The Go source is shallowly embedded: each Go function is
  translated into an executable Lean definition, state mutation becomes
  explicit state passing, Go maps become association lists, and the
  panic of a slice-bound violation becomes an explicit outcome
  constructor.  Theorems about the embedding settle the specification
  claims.
-/

namespace Olive

/-! ## Values

Go stores argument values as `interface{}`.  The parser only ever puts
`int`, `float64` and `string` values inside, so the embedding uses a
closed sum.  Floating point arithmetic is not modelled: a float value is
represented by the raw literal text that produced it (the float64 it
denotes is a pure function of that text); the acceptance of
`strconv.ParseFloat` — syntax and the overflow ErrRange path — is
embedded exactly. -/

inductive Value : Type where
  | vInt (n : Int)
  | vFloat (raw : String)
  | vStr (s : String)
  deriving DecidableEq, Repr

/-! ## Embedding of strconv.ParseInt(s, 0, 64)

Mirrors Go strconv: sign handling in ParseInt, base detection from the
literal prefix (base 0), digit accumulation with cutoff/range checks in
ParseUint, and the underscore placement check `underscoreOK`. -/

def digitVal (c : Char) : Option Nat :=
  if '0' ≤ c ∧ c ≤ '9' then some (c.toNat - '0'.toNat)
  else if 'a' ≤ c ∧ c ≤ 'z' then some (c.toNat - 'a'.toNat + 10)
  else if 'A' ≤ c ∧ c ≤ 'Z' then some (c.toNat - 'A'.toNat + 10)
  else none

/-- the `saw` classes of Go strconv's underscoreOK: start of number,
digit (or base-prefix character), underscore, anything else. -/
inductive SawClass : Type where
  | start | digit | under | other
  deriving DecidableEq

def underscoreOKLoop (hex : Bool) : SawClass → List Char → Bool
  | saw, [] => saw ≠ SawClass.under
  | saw, c :: rest =>
    if ('0' ≤ c ∧ c ≤ '9') ∨ (hex ∧ 'a' ≤ c.toLower ∧ c.toLower ≤ 'f') then
      underscoreOKLoop hex SawClass.digit rest
    else if c = '_' then
      match saw with
      | SawClass.digit => underscoreOKLoop hex SawClass.under rest
      | _ => false
    else
      match saw with
      | SawClass.under => false
      | _ => underscoreOKLoop hex SawClass.other rest

def underscoreOK (s : List Char) : Bool :=
  let s1 := match s with
    | c :: rest => if c = '-' ∨ c = '+' then rest else s
    | [] => s
  match s1 with
  | '0' :: b :: rest =>
    if b.toLower = 'b' ∨ b.toLower = 'o' ∨ b.toLower = 'x' then
      underscoreOKLoop (b.toLower = 'x') SawClass.digit rest
    else
      underscoreOKLoop false SawClass.start s1
  | _ => underscoreOKLoop false SawClass.start s1

/-- error kinds of strconv: invalid syntax or value out of range. -/
inductive NumErr : Type where
  | syn | range
  deriving DecidableEq

def maxUint64 : Nat := 2 ^ 64 - 1

/-- the digit-accumulation loop of strconv.ParseUint: processes digits
left to right, tracks whether an underscore was seen, and fails with a
range error at the position where the accumulated value would leave the
64-bit range. -/
def parseUintLoop (base : Nat) : List Char → Nat → Bool → Except NumErr (Nat × Bool)
  | [], n, u => .ok (n, u)
  | c :: rest, n, u =>
    if c = '_' then parseUintLoop base rest n true
    else
      match digitVal c with
      | none => .error NumErr.syn
      | some d =>
        if d ≥ base then .error NumErr.syn
        else if n ≥ maxUint64 / base + 1 then .error NumErr.range
        else if n * base + d > maxUint64 then .error NumErr.range
        else parseUintLoop base rest (n * base + d) u

/-- strconv.ParseUint(s, 0, 64) on a sign-free string: base detection
from the literal prefix, digit loop, underscore validation. -/
def parseUintGo (s : List Char) : Except NumErr Nat :=
  match s with
  | [] => .error NumErr.syn
  | _ =>
    let p : Nat × List Char :=
      match s with
      | '0' :: b :: rest =>
        if s.length ≥ 3 ∧ b.toLower = 'b' then (2, rest)
        else if s.length ≥ 3 ∧ b.toLower = 'o' then (8, rest)
        else if s.length ≥ 3 ∧ b.toLower = 'x' then (16, rest)
        else (8, b :: rest)
      | '0' :: [] => (8, [])
      | _ => (10, s)
    match parseUintLoop p.1 p.2 0 false with
    | .error e => .error e
    | .ok (n, underscores) =>
      if underscores ∧ underscoreOK s = false then .error NumErr.syn
      else .ok n

def quoted (s : String) : String := "\"" ++ s ++ "\""

/-- strconv.ParseInt(s, 0, 64) as used by IntArgument.checkValue: strip
an optional sign, parse the magnitude, apply the signed 64-bit range
checks, and render errors the way a Go NumError prints. -/
def parseGoInt (s : String) : Except String Int :=
  match s.data with
  | [] => .error ("strconv.ParseInt: parsing " ++ quoted s ++ ": invalid syntax")
  | c :: rest =>
    let p : Bool × List Char :=
      if c = '+' then (false, rest)
      else if c = '-' then (true, rest)
      else (false, c :: rest)
    match parseUintGo p.2 with
    | .error NumErr.syn =>
      .error ("strconv.ParseInt: parsing " ++ quoted s ++ ": invalid syntax")
    | .error NumErr.range =>
      .error ("strconv.ParseInt: parsing " ++ quoted s ++ ": value out of range")
    | .ok n =>
      if p.1 = false ∧ n ≥ 2 ^ 63 then
        .error ("strconv.ParseInt: parsing " ++ quoted s ++ ": value out of range")
      else if p.1 = true ∧ n > 2 ^ 63 then
        .error ("strconv.ParseInt: parsing " ++ quoted s ++ ": value out of range")
      else .ok (if p.1 then -(n : Int) else (n : Int))

/-! ## Embedding of strconv.ParseFloat(s, 64)

Both outcomes that FloatArgument.checkValue can observe are embedded:
whether the literal is syntactically accepted, and whether ParseFloat
reports ErrRange.  In strconv only overflow to ±Inf raises ErrRange —
the fast paths (atof64exact, eiselLemire64) bail out to the slow path
near the boundary, decimal conversion reaches floatBits' overflow label
exactly when the correctly rounded value is infinite, and underflow
returns 0 or a denormal with a nil error.  Under round-to-nearest-even
the rounded value is infinite exactly when the literal's exact
magnitude is at least 2^1024 - 2^970 (the largest finite float64 is
2^1024 - 2^971; at the midpoint above it the tie goes to the even
candidate 2^1024, hence ±Inf), the same boundary atofHex's sticky-bit
rounding realizes for hex literals.  That exact-magnitude comparison is
decidable over Nat, so the ErrRange predicate is embedded exactly. -/

def isDigit (c : Char) : Bool := '0' ≤ c ∧ c ≤ '9'

def isHexDigit (c : Char) : Bool := isDigit c ∨ ('a' ≤ c.toLower ∧ c.toLower ≤ 'f')

def lowerEq (l : List Char) (w : String) : Bool := l.map Char.toLower = w.data

/-- the special values recognized by strconv: optionally signed
infinity spellings, and an unsigned nan. -/
def floatSpecial (s : List Char) : Bool :=
  match s with
  | c :: rest =>
    if c = '+' ∨ c = '-' then lowerEq rest "inf" ∨ lowerEq rest "infinity"
    else lowerEq s "inf" ∨ lowerEq s "infinity" ∨ lowerEq s "nan"
  | [] => false

/-- scans mantissa digits, underscores and at most one decimal point;
returns the unconsumed remainder and whether a digit was seen. -/
def scanMantissa (hex : Bool) : List Char → Bool → Bool → List Char × Bool
  | [], sawDigit, _ => ([], sawDigit)
  | c :: rest, sawDigit, sawDot =>
    if (if hex then isHexDigit c else isDigit c) then
      scanMantissa hex rest true sawDot
    else if c = '_' then
      scanMantissa hex rest sawDigit sawDot
    else if c = '.' ∧ sawDot = false then
      scanMantissa hex rest sawDigit true
    else (c :: rest, sawDigit)

/-- scans an exponent part: at least one decimal digit, underscores
allowed, must consume the whole remainder. -/
def scanExponentEnd : List Char → Bool → Bool
  | [], sawDigit => sawDigit
  | c :: rest, sawDigit =>
    if isDigit c then scanExponentEnd rest true
    else if c = '_' then scanExponentEnd rest sawDigit
    else false

def stripSignChar (l : List Char) : List Char :=
  match l with
  | c :: rest => if c = '+' ∨ c = '-' then rest else l
  | [] => l

/-- syntactic acceptance of strconv.ParseFloat(s, 64): special values,
decimal literals with optional e-exponent, hex literals with mandatory
p-exponent, with Go's underscore placement rule. -/
def goFloatSyntaxOK (s : String) : Bool :=
  let l := s.data
  if floatSpecial l then true
  else
    let l1 := stripSignChar l
    let core : Bool :=
      match l1 with
      | '0' :: x :: rest =>
        if x.toLower = 'x' then
          let p := scanMantissa true rest false false
          p.2 && (match p.1 with
                  | e :: rest2 =>
                    (e.toLower = 'p') && scanExponentEnd (stripSignChar rest2) false
                  | [] => false)
        else
          let p := scanMantissa false l1 false false
          p.2 && (match p.1 with
                  | e :: rest2 =>
                    (e.toLower = 'e') && scanExponentEnd (stripSignChar rest2) false
                  | [] => true)
      | _ =>
        let p := scanMantissa false l1 false false
        p.2 && (match p.1 with
                | e :: rest2 =>
                  (e.toLower = 'e') && scanExponentEnd (stripSignChar rest2) false
                | [] => true)
    core && (if l.contains '_' then underscoreOK l else true)

/-- the digit pass of the float conversion, kept exact (strconv's slow
path reads every mantissa digit): scans base-10 or base-16 digits,
skipping underscores and at most one decimal point, accumulating the
digits' value and counting the digits after the point; returns the
unconsumed remainder as well. -/
def scanMantissaVal (b : Nat) : List Char → Nat → Nat → Bool → List Char × Nat × Nat
  | [], acc, nfrac, _ => ([], acc, nfrac)
  | c :: rest, acc, nfrac, sawDot =>
    if (if b = 16 then isHexDigit c else isDigit c) then
      scanMantissaVal b rest (acc * b + (digitVal c).getD 0)
        (if sawDot then nfrac + 1 else nfrac) sawDot
    else if c = '_' then scanMantissaVal b rest acc nfrac sawDot
    else if c = '.' ∧ sawDot = false then scanMantissaVal b rest acc nfrac true
    else (c :: rest, acc, nfrac)

/-- readFloat's exponent accumulator: decimal digits, underscores
skipped, and the accumulator stops growing at 10000 exactly as in Go
(`if e < 10000`); past that bound the overflow predicate is constant,
so the cap loses nothing. -/
def scanExpAcc : List Char → Nat → Nat
  | [], acc => acc
  | c :: rest, acc =>
    if isDigit c then
      scanExpAcc rest (if acc < 10000 then acc * 10 + (digitVal c).getD 0 else acc)
    else scanExpAcc rest acc

/-- reads the exponent suffix left unconsumed by the mantissa scan (the
e/p marker, an optional sign, digits) as a signed exponent; an absent
suffix contributes zero. -/
def readExpSuffix : List Char → Int
  | [] => 0
  | _ :: rest =>
    match rest with
    | '-' :: ds => -(scanExpAcc ds 0 : Int)
    | '+' :: ds => (scanExpAcc ds 0 : Int)
    | ds => (scanExpAcc ds 0 : Int)

/-- the float64 overflow boundary: a magnitude of at least
2^1024 - 2^970 rounds to ±Inf under round-to-nearest-even, which is
exactly when strconv.ParseFloat reports ErrRange. -/
def float64OverflowBound : Nat := 2 ^ 1024 - 2 ^ 970

/-- whether mant * b^expo reaches the overflow boundary: the exact
rational comparison, expressed over Nat by clearing the denominator
when the exponent is negative. -/
def magReachesBound (mant b : Nat) (expo : Int) : Bool :=
  if 0 ≤ expo then decide (mant * b ^ expo.toNat ≥ float64OverflowBound)
  else decide (mant ≥ float64OverflowBound * b ^ (-expo).toNat)

/-- the ErrRange outcome of strconv.ParseFloat(s, 64) on a
syntactically accepted literal: never for the special spellings (±Inf
and NaN parse with a nil error), otherwise exactly when the literal's
magnitude — mantissa digits times 10^e10 (decimal, e10 counting the
decimal point shift) or times 2^e2 (hex, four bits per fractional hex
digit) — reaches the overflow boundary.  The sign is irrelevant to the
magnitude and is stripped. -/
def goFloatRangeErr (s : String) : Bool :=
  let l := s.data
  if floatSpecial l then false
  else
    let l1 := stripSignChar l
    match l1 with
    | '0' :: x :: rest =>
      if x.toLower = 'x' then
        let p := scanMantissaVal 16 rest 0 0 false
        magReachesBound p.2.1 2 (readExpSuffix p.1 - 4 * (p.2.2 : Int))
      else
        let p := scanMantissaVal 10 l1 0 0 false
        magReachesBound p.2.1 10 (readExpSuffix p.1 - (p.2.2 : Int))
    | _ =>
      let p := scanMantissaVal 10 l1 0 0 false
      magReachesBound p.2.1 10 (readExpSuffix p.1 - (p.2.2 : Int))

/-! ## Data model

Flags, argument kinds (file embedded after the tests), primary
arguments and commands (olive.go).  Go maps become association lists;
the builder API keeps their keys unique and equal to the stored names,
which `Command.Valid` below records for quantified theorems.  A Go
side-effect callback is modelled by its observable: `hasAction`
records whether one is installed, and the parser logs the flag names
whose callback it invoked, in invocation order. -/

structure Flag : Type where
  name : String
  shortName : String
  desc : String
  hasAction : Bool
  deriving Repr

structure ArgBase : Type where
  name : String
  shortName : String
  desc : String
  required : Bool
  defaultValue : Option Value

/-- the Argument interface with its four implementations; a validator
returns `some errorMessage` to reject (Go: a non-nil error).  The
float validator receives the raw literal text standing for the float64
it denotes (see the Value comment). -/
inductive Argument : Type where
  | intArg (base : ArgBase) (validator : Option (Int → Option String))
  | floatArg (base : ArgBase) (validator : Option (String → Option String))
  | strArg (base : ArgBase) (validator : Option (String → Option String))
  | selectorArg (base : ArgBase) (possibleValues : List String)
      (validator : Option (String → Option String))

def Argument.base : Argument → ArgBase
  | .intArg b _ => b
  | .floatArg b _ => b
  | .strArg b _ => b
  | .selectorArg b _ _ => b

def Argument.name (a : Argument) : String := a.base.name

def Argument.shortName (a : Argument) : String := a.base.shortName

def Argument.argRequired (a : Argument) : Bool := a.base.required

/-- argumentBase.GetDefaultValue: the Go sentinel is a nil interface
value, so a stored default — even the zero value of its type, such as
int 0 — reports ok.  The embedding uses Option accordingly. -/
def Argument.getDefaultValue (a : Argument) : Option Value := a.base.defaultValue

/-- checkValue of each argument kind: syntactic parse first, then the
validator if one is installed. -/
def Argument.checkValue : Argument → String → Except String Value
  | .intArg _ validator, val =>
    match parseGoInt val with
    | .error e => .error e
    | .ok n =>
      match validator with
      | some v =>
        match v n with
        | some err => .error err
        | none => .ok (Value.vInt n)
      | none => .ok (Value.vInt n)
  | .floatArg _ validator, val =>
    if goFloatSyntaxOK val then
      if goFloatRangeErr val then
        .error ("strconv.ParseFloat: parsing " ++ quoted val ++ ": value out of range")
      else
        match validator with
        | some v =>
          match v val with
          | some err => .error err
          | none => .ok (Value.vFloat val)
        | none => .ok (Value.vFloat val)
    else
      .error ("strconv.ParseFloat: parsing " ++ quoted val ++ ": invalid syntax")
  | .strArg _ validator, val =>
    match validator with
    | some v =>
      match v val with
      | some err => .error err
      | none => .ok (Value.vStr val)
    | none => .ok (Value.vStr val)
  | .selectorArg b possibleValues validator, val =>
    if val ∈ possibleValues then
      match validator with
      | some v =>
        match v val with
        | some err => .error err
        | none => .ok (Value.vStr val)
      | none => .ok (Value.vStr val)
    else
      .error ("`" ++ val ++ "` is not a valid value for argument [" ++ b.name ++ "]")

structure PrimaryArgument : Type where
  name : String
  desc : String
  required : Bool

/-- the command tree node.  Go holds four maps (flags and arguments,
each also mirrored by short name) plus the subcommand map; all become
association lists here. -/
inductive Command : Type where
  | mk (name description : String) (requiresSubcommand : Bool)
      (flags flagsByShortName : List (String × Flag))
      (args argsByShortName : List (String × Argument))
      (primaryArg : Option PrimaryArgument)
      (subcommands : List (String × Command)) : Command

def Command.name : Command → String
  | .mk n _ _ _ _ _ _ _ _ => n

def Command.description : Command → String
  | .mk _ d _ _ _ _ _ _ _ => d

def Command.requiresSubcommand : Command → Bool
  | .mk _ _ r _ _ _ _ _ _ => r

def Command.flags : Command → List (String × Flag)
  | .mk _ _ _ f _ _ _ _ _ => f

def Command.flagsByShortName : Command → List (String × Flag)
  | .mk _ _ _ _ f _ _ _ _ => f

def Command.args : Command → List (String × Argument)
  | .mk _ _ _ _ _ a _ _ _ => a

def Command.argsByShortName : Command → List (String × Argument)
  | .mk _ _ _ _ _ _ a _ _ => a

def Command.primaryArg : Command → Option PrimaryArgument
  | .mk _ _ _ _ _ _ _ p _ => p

def Command.subcommands : Command → List (String × Command)
  | .mk _ _ _ _ _ _ _ _ s => s

/-- lookup in an association list (a Go map access), first match wins. -/
def lookupKey {α : Type} (l : List (String × α)) (n : String) : Option α :=
  match l with
  | [] => none
  | p :: rest => if p.1 = n then some p.2 else lookupKey rest n

/-! ## Result model -/

/-- ArgParseResult: per scope the set flag names, the typed argument
values, the chosen subcommand (name and nested result) and the raw
primary-argument string. -/
inductive ArgParseResult : Type where
  | mk (flags : List String) (arguments : List (String × Value))
      (subcommandName : String) (subcommandRes : Option ArgParseResult)
      (primaryArg : String) : ArgParseResult

def ArgParseResult.flags : ArgParseResult → List String
  | .mk f _ _ _ _ => f

def ArgParseResult.arguments : ArgParseResult → List (String × Value)
  | .mk _ a _ _ _ => a

def ArgParseResult.subcommandName : ArgParseResult → String
  | .mk _ _ n _ _ => n

def ArgParseResult.subcommandRes : ArgParseResult → Option ArgParseResult
  | .mk _ _ _ r _ => r

def ArgParseResult.primaryArg : ArgParseResult → String
  | .mk _ _ _ _ p => p

/-- ArgParseResult.HasFlag. -/
def ArgParseResult.hasFlag (r : ArgParseResult) (name : String) : Bool :=
  name ∈ r.flags

/-- ArgParseResult.PrimaryArg: the value together with presence, where
presence is the string being nonempty. -/
def ArgParseResult.primaryArgAcc (r : ArgParseResult) : String × Bool :=
  (r.primaryArg, r.primaryArg ≠ "")

/-- ArgParseResult.Subcommand: chosen child name, child result,
presence. -/
def ArgParseResult.subcommandAcc (r : ArgParseResult) :
    String × Option ArgParseResult × Bool :=
  (r.subcommandName, r.subcommandRes, r.subcommandRes.isSome)

/-! ## Token shape helpers (argparser's strings operations) -/

/-- strings.HasPrefix(arg, "--"). -/
def isDoubleDashTok (s : String) : Bool :=
  match s.data with
  | '-' :: '-' :: _ => true
  | _ => false

/-- strings.HasPrefix(arg, "-"). -/
def isDashTok (s : String) : Bool :=
  match s.data with
  | '-' :: _ => true
  | _ => false

/-- splits a character list at its first '=': returns the part before
and the part after it (kept verbatim), or none when no '=' occurs.
This is strings.Split followed by rejoining components[1:] with "=". -/
def splitFirstEq : List Char → Option (List Char × List Char)
  | [] => none
  | c :: rest =>
    if c = '=' then some ([], rest)
    else
      match splitFirstEq rest with
      | some (pre, post) => some (c :: pre, post)
      | none => none

/-- argParser.extractComponents: name and raw value of a token.  The
name is the part before the first '=' with all leading dashes trimmed
(strings.TrimLeft(·, "-")); the value is everything after the first
'=' kept verbatim, or "" when the token has no '='. -/
def extractComponents (arg : String) : String × String :=
  match splitFirstEq arg.data with
  | some (pre, post) => (⟨pre.dropWhile (· = '-')⟩, ⟨post⟩)
  | none => (⟨arg.data.dropWhile (· = '-')⟩, "")

/-! ## Parser state -/

/-- the per-scope portion of an in-progress ArgParseResult (the child
link is reconstructed from the stack shape when parsing finishes). -/
structure Frame : Type where
  flags : List String
  arguments : List (String × Value)
  subcommandName : String
  primaryArg : String

def emptyFrame : Frame := ⟨[], [], "", ""⟩

/-- one level of the parser's parallel stacks: the active command and
its in-progress result. -/
structure Entry : Type where
  cmd : Command
  frame : Frame

/-- the argParser state: the command/semantic stack with the innermost
scope first (Go indexes from len-1 down, the embedding from the head),
the log of invoked flag callbacks, and the subcommand latch. -/
structure ParserState : Type where
  stack : List Entry
  events : List String
  allowSubcommands : Bool

/-- generic innermost-first search: the least index whose level yields
a hit, together with the hit.  This is the Go loop
`for i := len(stack)-1; i > -1; i--` with its early return. -/
def findFirst? {β α : Type} (f : β → Option α) : List β → Option (Nat × α)
  | [] => none
  | e :: rest =>
    match f e with
    | some a => some (0, a)
    | none =>
      match findFirst? f rest with
      | some (i, a) => some (i + 1, a)
      | none => none

/-- argParser.setFlag on the stack level at the given depth below the
innermost: fails when the flag name is already present in that level's
result, otherwise marks it. -/
def setFlagInStack (f : Flag) : Nat → List Entry → Except String (List Entry)
  | _, [] => .error "invalid stack index"
  | 0, e :: rest =>
    if f.name ∈ e.frame.flags then
      .error ("flag `" ++ f.name ++ "` set multiple times")
    else
      .ok ({ e with frame := { e.frame with flags := e.frame.flags ++ [f.name] } } :: rest)
  | i + 1, e :: rest =>
    match setFlagInStack f i rest with
    | .ok rest' => .ok (e :: rest')
    | .error msg => .error msg

/-- argParser.setFlag including the callback invocation: after marking
the flag present, the callback (when installed) runs exactly once,
which the event log records. -/
def setFlagAt (st : ParserState) (i : Nat) (f : Flag) : Except String ParserState :=
  match setFlagInStack f i st.stack with
  | .ok stk =>
    .ok { st with stack := stk,
                  events := st.events ++ (if f.hasAction then [f.name] else []) }
  | .error msg => .error msg

/-- argParser.setArg on the stack level at the given depth: fails when
the argument already has a value there, otherwise checks the raw value
and stores the typed result under the argument's full name. -/
def setArgInStack (a : Argument) (value : String) :
    Nat → List Entry → Except String (List Entry)
  | _, [] => .error "invalid stack index"
  | 0, e :: rest =>
    if (lookupKey e.frame.arguments a.name).isSome then
      .error ("argument `" ++ a.name ++ "` set multiple times")
    else
      match a.checkValue value with
      | .ok v =>
        .ok ({ e with frame :=
                { e.frame with arguments := e.frame.arguments ++ [(a.name, v)] } } :: rest)
      | .error err => .error err
  | i + 1, e :: rest =>
    match setArgInStack a value i rest with
    | .ok rest' => .ok (e :: rest')
    | .error msg => .error msg

def setArgAt (st : ParserState) (i : Nat) (a : Argument) (value : String) :
    Except String ParserState :=
  match setArgInStack a value i st.stack with
  | .ok stk => .ok { st with stack := stk }
  | .error msg => .error msg

/-- argParser.consume: processes a single token.  The stack is nonempty
throughout a parse (Go indexes it unconditionally); the empty case is
unreachable and errors for totality. -/
def consume (st : ParserState) (arg : String) : Except String ParserState :=
  match st.stack with
  | [] => .error "empty parser stack"
  | top :: rest =>
    if isDoubleDashTok arg then
      let st1 : ParserState := { st with allowSubcommands := false }
      let p := extractComponents arg
      if p.2 = "" then
        match findFirst? (fun e => lookupKey e.cmd.flags p.1) st1.stack with
        | some (i, f) => setFlagAt st1 i f
        | none => .error ("unknown flag: `" ++ p.1 ++ "`")
      else
        match findFirst? (fun e => lookupKey e.cmd.args p.1) st1.stack with
        | some (i, a) => setArgAt st1 i a p.2
        | none => .error ("unknown argument: `" ++ p.1 ++ "`")
    else if isDashTok arg then
      let st1 : ParserState := { st with allowSubcommands := false }
      let p := extractComponents arg
      if p.2 = "" then
        match findFirst? (fun e => lookupKey e.cmd.flagsByShortName p.1) st1.stack with
        | some (i, f) => setFlagAt st1 i f
        | none => .error ("unknown flag by short name: `" ++ p.1 ++ "`")
      else
        match findFirst? (fun e => lookupKey e.cmd.argsByShortName p.1) st1.stack with
        | some (i, a) => setArgAt st1 i a p.2
        | none => .error ("unknown argument by short name: `" ++ p.1 ++ "`")
    else if (top.cmd.primaryArg).isSome then
      if top.frame.primaryArg ≠ "" then
        .error ("multiple primary arguments specified for command `" ++ top.cmd.name ++ "`")
      else
        .ok { st with
                stack := { top with frame := { top.frame with primaryArg := arg } } :: rest,
                allowSubcommands := false }
    else if st.allowSubcommands then
      match lookupKey top.cmd.subcommands arg with
      | some subc =>
        .ok { st with
                stack := ⟨subc, emptyFrame⟩ ::
                  { top with frame := { top.frame with subcommandName := subc.name } } :: rest }
      | none => .error ("unknown subcommand: `" ++ arg ++ "`")
    else
      .error ("unknown subcommand: `" ++ arg ++ "`")

def consumeAll (st : ParserState) : List String → Except String ParserState
  | [] => .ok st
  | t :: rest =>
    match consume st t with
    | .ok st' => consumeAll st' rest
    | .error e => .error e

/-! ## Finalization: default fill-in and result assembly -/

/-- the default fill-in loop of argParser.parse for one stack level:
for each declared argument with a default value and no recorded value,
record the default. -/
def addDefaults (existing : List (String × Value)) :
    List (String × Argument) → List (String × Value)
  | [] => existing
  | (_, a) :: rest =>
    match a.getDefaultValue with
    | some d =>
      if (lookupKey existing a.name).isSome then addDefaults existing rest
      else addDefaults (existing ++ [(a.name, d)]) rest
    | none => addDefaults existing rest

def fillDefaultsEntry (e : Entry) : Entry :=
  { e with frame := { e.frame with arguments := addDefaults e.frame.arguments e.cmd.args } }

def frameToResult (f : Frame) (sub : Option ArgParseResult) : ArgParseResult :=
  .mk f.flags f.arguments f.subcommandName sub f.primaryArg

/-- rebuilds the nested ArgParseResult from the final stack given
outermost-first: each level links to the next as its chosen
subcommand's result (Go links these at push time through pointers). -/
def assembleRootFirst : List Entry → Option ArgParseResult
  | [] => none
  | e :: rest => some (frameToResult e.frame (assembleRootFirst rest))

def initState (c : Command) : ParserState :=
  { stack := [⟨c, emptyFrame⟩], events := [], allowSubcommands := true }

/-- argParser.parse: consume every token, check the innermost command's
subcommand requirement, fill defaults on every level, and return the
root result. -/
def parse (c : Command) (toks : List String) : Except String ArgParseResult :=
  match consumeAll (initState c) toks with
  | .error e => .error e
  | .ok st =>
    match st.stack with
    | [] => .error "empty parser stack"
    | top :: _ =>
      if 0 < top.cmd.subcommands.length ∧ top.cmd.requiresSubcommand = true then
        .error ("`" ++ top.cmd.name ++ "` requires a subcommand")
      else
        match assembleRootFirst ((st.stack.map fillDefaultsEntry).reverse) with
        | some r => .ok r
        | none => .error "empty parser stack"

/-- the outcome of calling a Go function that may panic. -/
inductive GoOutcome (α : Type) : Type where
  | crashed (msg : String)
  | returned (v : α)

/-- ParseArgs: discards the conventional program-name token via
args[1:], which on an empty slice is a slice-bounds panic. -/
def ParseArgs (cli : Command) (args : List String) :
    GoOutcome (Except String ArgParseResult) :=
  match args with
  | [] => .crashed "runtime error: slice bounds out of range [1:0]"
  | _ :: rest => .returned (parse cli rest)

/-! ## Basic lemmas about lookup and innermost-first search -/

theorem lookupKey_some_mem {α : Type} {l : List (String × α)} {n : String} {v : α}
    (h : lookupKey l n = some v) : (n, v) ∈ l := by
  induction l with
  | nil => simp [lookupKey] at h
  | cons p rest ih =>
    obtain ⟨k, w⟩ := p
    by_cases hp : k = n
    · subst hp
      simp only [lookupKey, if_pos rfl] at h
      obtain rfl := Option.some.inj h
      exact List.mem_cons_self _ _
    · simp only [lookupKey, hp, if_false] at h
      exact List.mem_cons_of_mem _ (ih h)

theorem lookupKey_append_some {α : Type} {l₁ l₂ : List (String × α)} {n : String} {v : α}
    (h : lookupKey l₁ n = some v) : lookupKey (l₁ ++ l₂) n = some v := by
  induction l₁ with
  | nil => simp [lookupKey] at h
  | cons p rest ih =>
    by_cases hp : p.1 = n
    · simpa [lookupKey, hp] using h
    · simp only [lookupKey, hp, if_false, List.cons_append] at h ⊢
      exact ih h

theorem lookupKey_append_none {α : Type} {l₁ l₂ : List (String × α)} {n : String}
    (h : lookupKey l₁ n = none) : lookupKey (l₁ ++ l₂) n = lookupKey l₂ n := by
  induction l₁ with
  | nil => simp
  | cons p rest ih =>
    by_cases hp : p.1 = n
    · simp [lookupKey, hp] at h
    · simp only [lookupKey, hp, if_false, List.cons_append] at h ⊢
      exact ih h

theorem findFirst?_none_iff {β α : Type} {f : β → Option α} {l : List β} :
    findFirst? f l = none ↔ ∀ e ∈ l, f e = none := by
  induction l with
  | nil => simp [findFirst?]
  | cons e rest ih =>
    constructor
    · intro h e' he'
      rcases List.mem_cons.mp he' with rfl | hmem
      · cases hf : f e' <;> simp [findFirst?, hf] at h ⊢
      · cases hf : f e with
        | some a => simp [findFirst?, hf] at h
        | none =>
          simp only [findFirst?, hf] at h
          cases hrest : findFirst? f rest with
          | some p => obtain ⟨i, a⟩ := p; simp [hrest] at h
          | none => exact ih.mp hrest e' hmem
    · intro h
      have hf : f e = none := h e (List.mem_cons_self _ _)
      have hrest : findFirst? f rest = none :=
        ih.mpr fun e' he' => h e' (List.mem_cons_of_mem _ he')
      simp [findFirst?, hf, hrest]

theorem findFirst?_some_spec {β α : Type} {f : β → Option α} {l : List β} {i : Nat} {a : α}
    (h : findFirst? f l = some (i, a)) :
    ∃ e, l.get? i = some e ∧ f e = some a ∧
      ∀ j, j < i → ∀ e', l.get? j = some e' → f e' = none := by
  induction l generalizing i with
  | nil => simp [findFirst?] at h
  | cons e rest ih =>
    cases hf : f e with
    | some a' =>
      simp only [findFirst?, hf] at h
      obtain ⟨hi, ha⟩ := Prod.mk.injEq .. ▸ (Option.some.inj h)
      subst hi; subst ha
      exact ⟨e, rfl, hf, fun j hj => absurd hj (Nat.not_lt_zero j)⟩
    | none =>
      simp only [findFirst?, hf] at h
      cases hrest : findFirst? f rest with
      | none => simp [hrest] at h
      | some p =>
        obtain ⟨i', a'⟩ := p
        simp only [hrest] at h
        obtain ⟨hi, ha⟩ := Prod.mk.injEq .. ▸ (Option.some.inj h)
        subst ha
        obtain ⟨e', hget, hfe, hmin⟩ := ih hrest
        refine ⟨e', ?_, hfe, ?_⟩
        · rw [← hi]; exact hget
        · intro j hj e'' hget''
          cases j with
          | zero => exact Option.some.inj hget'' ▸ hf
          | succ j' =>
            apply hmin j' _ e'' hget''
            omega

theorem findFirst?_some_of {β α : Type} {f : β → Option α} {l : List β} {i : Nat}
    {e : β} {a : α}
    (h₀ : ∀ j, j < i → ∀ e', l.get? j = some e' → f e' = none)
    (h₁ : l.get? i = some e) (h₂ : f e = some a) :
    findFirst? f l = some (i, a) := by
  induction l generalizing i with
  | nil => simp at h₁
  | cons x rest ih =>
    cases i with
    | zero =>
      obtain rfl := Option.some.inj h₁
      simp [findFirst?, h₂]
    | succ i' =>
      have hx : f x = none := h₀ 0 (Nat.succ_pos _) x rfl
      have hrest : findFirst? f rest = some (i', a) := by
        apply ih _ h₁
        intro j hj e' hget
        exact h₀ (j + 1) (by omega) e' hget
      simp [findFirst?, hx, hrest]

theorem findFirst?_map {β γ α : Type} (g : β → γ) (f : γ → Option α) (l : List β) :
    findFirst? f (l.map g) = findFirst? (fun b => f (g b)) l := by
  induction l with
  | nil => simp [findFirst?]
  | cons e rest ih => simp only [List.map_cons, findFirst?, ih]

/-! ## Lemmas about the flag- and argument-setting stack operations -/

theorem setFlagInStack_already {f : Flag} {i : Nat} {l : List Entry} {e : Entry}
    (hget : l.get? i = some e) (hmem : f.name ∈ e.frame.flags) :
    setFlagInStack f i l = .error ("flag `" ++ f.name ++ "` set multiple times") := by
  induction l generalizing i with
  | nil => simp at hget
  | cons x rest ih =>
    cases i with
    | zero =>
      obtain rfl := Option.some.inj hget
      simp [setFlagInStack, hmem]
    | succ i' =>
      have := @ih i' hget
      simp [setFlagInStack, this]

theorem setFlagInStack_ok_spec {f : Flag} {i : Nat} {l : List Entry} {e : Entry}
    (hget : l.get? i = some e) (hnot : f.name ∉ e.frame.flags) :
    ∃ l', setFlagInStack f i l = .ok l' ∧
      l'.map Entry.cmd = l.map Entry.cmd ∧ l'.length = l.length ∧
      l'.get? i = some { e with frame :=
        { e.frame with flags := e.frame.flags ++ [f.name] } } ∧
      (∀ j, j ≠ i → l'.get? j = l.get? j) := by
  induction l generalizing i with
  | nil => simp at hget
  | cons x rest ih =>
    cases i with
    | zero =>
      obtain rfl := Option.some.inj hget
      refine ⟨{ x with frame := { x.frame with flags := x.frame.flags ++ [f.name] } } :: rest,
        by simp [setFlagInStack, hnot], by simp, by simp, rfl, ?_⟩
      intro j hj
      cases j with
      | zero => exact absurd rfl hj
      | succ j' => rfl
    | succ i' =>
      obtain ⟨rest', hok, hcmd, hlen, hgeti, hother⟩ := @ih i' hget
      refine ⟨x :: rest', by simp [setFlagInStack, hok], by simp [hcmd],
        by simp [hlen], hgeti, ?_⟩
      intro j hj
      cases j with
      | zero => rfl
      | succ j' => exact hother j' (by omega)

theorem setArgInStack_already {a : Argument} {value : String} {i : Nat} {l : List Entry}
    {e : Entry} (hget : l.get? i = some e)
    (hmem : (lookupKey e.frame.arguments a.name).isSome) :
    setArgInStack a value i l = .error ("argument `" ++ a.name ++ "` set multiple times") := by
  induction l generalizing i with
  | nil => simp at hget
  | cons x rest ih =>
    cases i with
    | zero =>
      obtain rfl := Option.some.inj hget
      simp [setArgInStack, hmem]
    | succ i' =>
      have := @ih i' hget
      simp [setArgInStack, this]

theorem setArgInStack_checkErr {a : Argument} {value : String} {i : Nat} {l : List Entry}
    {e : Entry} {msg : String} (hget : l.get? i = some e)
    (hnot : lookupKey e.frame.arguments a.name = none)
    (hchk : a.checkValue value = .error msg) :
    setArgInStack a value i l = .error msg := by
  induction l generalizing i with
  | nil => simp at hget
  | cons x rest ih =>
    cases i with
    | zero =>
      obtain rfl := Option.some.inj hget
      simp [setArgInStack, hnot, hchk]
    | succ i' =>
      have := @ih i' hget
      simp [setArgInStack, this]

theorem setArgInStack_ok_spec {a : Argument} {value : String} {i : Nat} {l : List Entry}
    {e : Entry} {v : Value} (hget : l.get? i = some e)
    (hnot : lookupKey e.frame.arguments a.name = none)
    (hchk : a.checkValue value = .ok v) :
    ∃ l', setArgInStack a value i l = .ok l' ∧
      l'.map Entry.cmd = l.map Entry.cmd ∧ l'.length = l.length ∧
      l'.get? i = some { e with frame :=
        { e.frame with arguments := e.frame.arguments ++ [(a.name, v)] } } ∧
      (∀ j, j ≠ i → l'.get? j = l.get? j) := by
  induction l generalizing i with
  | nil => simp at hget
  | cons x rest ih =>
    cases i with
    | zero =>
      obtain rfl := Option.some.inj hget
      refine ⟨{ x with frame :=
          { x.frame with arguments := x.frame.arguments ++ [(a.name, v)] } } :: rest,
        by simp [setArgInStack, hnot, hchk], by simp, by simp, rfl, ?_⟩
      intro j hj
      cases j with
      | zero => exact absurd rfl hj
      | succ j' => rfl
    | succ i' =>
      obtain ⟨rest', hok, hcmd, hlen, hgeti, hother⟩ := @ih i' hget
      refine ⟨x :: rest', by simp [setArgInStack, hok], by simp [hcmd],
        by simp [hlen], hgeti, ?_⟩
      intro j hj
      cases j with
      | zero => rfl
      | succ j' => exact hother j' (by omega)

/-! ## Step characterizations of consume -/

theorem ddash_implies_dash {s : String} (h : isDoubleDashTok s = true) :
    isDashTok s = true := by
  unfold isDoubleDashTok at h
  unfold isDashTok
  match hd : s.data with
  | '-' :: _ => rfl
  | [] => rw [hd] at h; simp at h
  | c :: rest =>
    rw [hd] at h
    match c, rest with
    | '-', '-' :: _ => rfl
    | _, _ => first | rfl | (revert h; split <;> simp_all)

theorem consume_ddash (st : ParserState) (arg : String) (top : Entry) (rest : List Entry)
    (hstk : st.stack = top :: rest) (hdd : isDoubleDashTok arg = true) :
    consume st arg =
      (if (extractComponents arg).2 = "" then
        match findFirst? (fun e => lookupKey e.cmd.flags (extractComponents arg).1) st.stack with
        | some (i, f) => setFlagAt { st with allowSubcommands := false } i f
        | none => .error ("unknown flag: `" ++ (extractComponents arg).1 ++ "`")
      else
        match findFirst? (fun e => lookupKey e.cmd.args (extractComponents arg).1) st.stack with
        | some (i, a) => setArgAt { st with allowSubcommands := false } i a (extractComponents arg).2
        | none => .error ("unknown argument: `" ++ (extractComponents arg).1 ++ "`")) := by
  obtain ⟨stk, events, allow⟩ := st
  simp only at hstk
  subst hstk
  simp only [consume, hdd, if_true]

theorem consume_sdash (st : ParserState) (arg : String) (top : Entry) (rest : List Entry)
    (hstk : st.stack = top :: rest) (hdd : isDoubleDashTok arg = false)
    (hsd : isDashTok arg = true) :
    consume st arg =
      (if (extractComponents arg).2 = "" then
        match findFirst? (fun e => lookupKey e.cmd.flagsByShortName (extractComponents arg).1) st.stack with
        | some (i, f) => setFlagAt { st with allowSubcommands := false } i f
        | none => .error ("unknown flag by short name: `" ++ (extractComponents arg).1 ++ "`")
      else
        match findFirst? (fun e => lookupKey e.cmd.argsByShortName (extractComponents arg).1) st.stack with
        | some (i, a) => setArgAt { st with allowSubcommands := false } i a (extractComponents arg).2
        | none => .error ("unknown argument by short name: `" ++ (extractComponents arg).1 ++ "`")) := by
  obtain ⟨stk, events, allow⟩ := st
  simp only at hstk
  subst hstk
  simp only [consume, hdd, hsd, if_true, Bool.false_eq_true, if_false]

theorem consume_bare (st : ParserState) (arg : String) (top : Entry) (rest : List Entry)
    (hstk : st.stack = top :: rest) (hsd : isDashTok arg = false) :
    consume st arg =
      (if (top.cmd.primaryArg).isSome then
        (if top.frame.primaryArg ≠ "" then
          .error ("multiple primary arguments specified for command `" ++ top.cmd.name ++ "`")
        else
          .ok { st with
            stack := { top with frame := { top.frame with primaryArg := arg } } :: rest,
            allowSubcommands := false })
      else if st.allowSubcommands then
        match lookupKey top.cmd.subcommands arg with
        | some subc =>
          .ok { st with
            stack := ⟨subc, emptyFrame⟩ ::
              { top with frame := { top.frame with subcommandName := subc.name } } :: rest }
        | none => .error ("unknown subcommand: `" ++ arg ++ "`")
      else .error ("unknown subcommand: `" ++ arg ++ "`")) := by
  have hdd : isDoubleDashTok arg = false := by
    cases h : isDoubleDashTok arg
    · rfl
    · rw [ddash_implies_dash h] at hsd; exact hsd
  obtain ⟨stk, events, allow⟩ := st
  simp only at hstk
  subst hstk
  simp only [consume, hdd, hsd, Bool.false_eq_true, if_false]

/-! ## Token resolution against a command stack

Used to state the claims: which flag or argument (and at which stack
depth, innermost first) a dashed token resolves to.  It follows the
classification of consume but only reads the commands. -/

inductive Resolved : Type where
  | flagR (i : Nat) (f : Flag)
  | argR (i : Nat) (a : Argument) (raw : String)

def resolveTok (cmds : List Command) (t : String) : Option Resolved :=
  if isDoubleDashTok t then
    let p := extractComponents t
    if p.2 = "" then
      (findFirst? (fun c => lookupKey c.flags p.1) cmds).map fun q => .flagR q.1 q.2
    else
      (findFirst? (fun c => lookupKey c.args p.1) cmds).map fun q => .argR q.1 q.2 p.2
  else if isDashTok t then
    let p := extractComponents t
    if p.2 = "" then
      (findFirst? (fun c => lookupKey c.flagsByShortName p.1) cmds).map fun q => .flagR q.1 q.2
    else
      (findFirst? (fun c => lookupKey c.argsByShortName p.1) cmds).map fun q => .argR q.1 q.2 p.2
  else none

/-- the subcommand chain prefix of a token list: pops tokens while they
are bare words naming a child of the innermost command, returning the
extended stack (innermost first) and the remaining tokens. -/
def chainSplit : List Command → List String → List Command × List String
  | cs, [] => (cs, [])
  | cs, t :: rest =>
    if isDashTok t then (cs, t :: rest)
    else
      match cs with
      | [] => (cs, t :: rest)
      | c :: _ =>
        match lookupKey c.subcommands t with
        | some sub => chainSplit (sub :: cs) rest
        | none => (cs, t :: rest)

/-- legality of the post-chain portion of a token list: every token is
a dashed token resolving to a declared flag or argument, no two tokens
resolve to the same flag (or the same argument) of the same stack
level, and every supplied raw value passes checkValue. -/
def legalTailB (cmds : List Command) :
    List String → List (Nat × String) → List (Nat × String) → Bool
  | [], _, _ => true
  | t :: rest, seenF, seenA =>
    match resolveTok cmds t with
    | some (.flagR i f) =>
      if (i, f.name) ∈ seenF then false
      else legalTailB cmds rest ((i, f.name) :: seenF) seenA
    | some (.argR i a raw) =>
      if (i, a.name) ∈ seenA then false
      else
        match a.checkValue raw with
        | .ok _ => legalTailB cmds rest seenF ((i, a.name) :: seenA)
        | .error _ => false
    | none => false

/-- a token sequence made only of declared subcommands (as a prefix)
followed by declared flags and named arguments in legal order, ending
in a scope whose subcommand requirement is satisfied. -/
def legalSeq (c : Command) (toks : List String) : Bool :=
  let p := chainSplit [c] toks
  match p.1 with
  | [] => false
  | cur :: _ =>
    (cur.subcommands.isEmpty || !cur.requiresSubcommand) && legalTailB p.1 p.2 [] []

/-- the flag names a legal tail sets at stack level i, in token order. -/
def flagsAt (cmds : List Command) (toks : List String) (i : Nat) : List String :=
  toks.filterMap fun t =>
    match resolveTok cmds t with
    | some (.flagR j f) => if j = i then some f.name else none
    | _ => none

/-- the named-argument values a legal tail records at stack level i, in
token order. -/
def argsAt (cmds : List Command) (toks : List String) (i : Nat) : List (String × Value) :=
  toks.filterMap fun t =>
    match resolveTok cmds t with
    | some (.argR j a raw) =>
      if j = i then
        match a.checkValue raw with
        | .ok v => some (a.name, v)
        | .error _ => none
      else none
    | _ => none

/-- validity of a builder-produced command tree: a command with
subcommands has no primary argument, argument map keys equal the
stored argument names and are duplicate free, and all children are
valid.  Every tree built through the olive builder API satisfies this
(the builder treats violations as fatal configuration errors). -/
inductive Command.Valid : Command → Prop where
  | intro (c : Command)
      (hprim : c.subcommands ≠ [] → c.primaryArg = none)
      (hkeys : ∀ p ∈ c.args, p.1 = (p.2 : Argument).name)
      (hdist : (c.args.map Prod.fst).Nodup)
      (hsub : ∀ p ∈ c.subcommands, Command.Valid p.2)
      : Command.Valid c

theorem Command.Valid.primNone {c : Command} (h : Command.Valid c)
    (hne : c.subcommands ≠ []) : c.primaryArg = none := by
  cases h with
  | intro _ hprim _ _ _ => exact hprim hne

theorem Command.Valid.argKey {c : Command} (h : Command.Valid c) :
    ∀ p ∈ c.args, p.1 = (p.2 : Argument).name := by
  cases h with
  | intro _ _ hkeys _ _ => exact hkeys

theorem Command.Valid.argNodup {c : Command} (h : Command.Valid c) :
    (c.args.map Prod.fst).Nodup := by
  cases h with
  | intro _ _ _ hdist _ => exact hdist

theorem Command.Valid.child {c c' : Command} {n : String} (h : Command.Valid c)
    (hmem : (n, c') ∈ c.subcommands) : Command.Valid c' := by
  cases h with
  | intro _ _ _ _ hsub => exact hsub (n, c') hmem

/-- the result scope at a given depth below this scope, following the
chain of chosen subcommand results. -/
def ArgParseResult.scopeAt : ArgParseResult → Nat → Option ArgParseResult
  | r, 0 => some r
  | r, j + 1 =>
    match r.subcommandRes with
    | some r' => ArgParseResult.scopeAt r' j
    | none => none

/-! ## Resolution agreement between consume and resolveTok -/

theorem resolveTok_isDash {cmds : List Command} {t : String} {r : Resolved}
    (h : resolveTok cmds t = some r) : isDashTok t = true := by
  by_cases hdd : isDoubleDashTok t
  · exact ddash_implies_dash hdd
  · by_cases hsd : isDashTok t
    · exact hsd
    · simp [resolveTok, hdd, hsd] at h

theorem consume_resolved_flag {st : ParserState} {arg : String} {i : Nat} {f : Flag}
    (hne : st.stack ≠ [])
    (hres : resolveTok (st.stack.map Entry.cmd) arg = some (.flagR i f)) :
    ∃ e, st.stack.get? i = some e ∧
      consume st arg = setFlagAt { st with allowSubcommands := false } i f := by
  obtain ⟨top, rest, hstk⟩ : ∃ top rest, st.stack = top :: rest := by
    cases hs : st.stack with
    | nil => exact absurd hs hne
    | cons a b => exact ⟨a, b, rfl⟩
  by_cases hdd : isDoubleDashTok arg
  · by_cases hemp : (extractComponents arg).2 = ""
    · rw [resolveTok, if_pos hdd, if_pos hemp, findFirst?_map] at hres
      cases hff : findFirst? (fun e => lookupKey e.cmd.flags (extractComponents arg).1) st.stack with
      | none => rw [hff] at hres; simp at hres
      | some q =>
        obtain ⟨j, g⟩ := q
        rw [hff] at hres
        simp only [Option.map_some', Option.some.injEq, Resolved.flagR.injEq] at hres
        obtain ⟨rfl, rfl⟩ := hres
        obtain ⟨e, hget, _, _⟩ := findFirst?_some_spec hff
        refine ⟨e, hget, ?_⟩
        rw [consume_ddash st arg top rest hstk hdd, if_pos hemp, hff]
    · rw [resolveTok, if_pos hdd, if_neg hemp] at hres
      cases hff : findFirst? (fun c => lookupKey c.args (extractComponents arg).1)
          (st.stack.map Entry.cmd) with
      | none => rw [hff] at hres; simp at hres
      | some q => rw [hff] at hres; simp at hres
  · by_cases hsd : isDashTok arg
    · by_cases hemp : (extractComponents arg).2 = ""
      · rw [resolveTok, if_neg hdd, if_pos hsd, if_pos hemp, findFirst?_map] at hres
        cases hff : findFirst? (fun e => lookupKey e.cmd.flagsByShortName (extractComponents arg).1) st.stack with
        | none => rw [hff] at hres; simp at hres
        | some q =>
          obtain ⟨j, g⟩ := q
          rw [hff] at hres
          simp only [Option.map_some', Option.some.injEq, Resolved.flagR.injEq] at hres
          obtain ⟨rfl, rfl⟩ := hres
          obtain ⟨e, hget, _, _⟩ := findFirst?_some_spec hff
          refine ⟨e, hget, ?_⟩
          rw [consume_sdash st arg top rest hstk (by simpa using hdd) hsd, if_pos hemp, hff]
      · rw [resolveTok, if_neg hdd, if_pos hsd, if_neg hemp] at hres
        cases hff : findFirst? (fun c => lookupKey c.argsByShortName (extractComponents arg).1)
            (st.stack.map Entry.cmd) with
        | none => rw [hff] at hres; simp at hres
        | some q => rw [hff] at hres; simp at hres
    · rw [resolveTok, if_neg hdd, if_neg hsd] at hres
      simp at hres

theorem consume_resolved_arg {st : ParserState} {arg : String} {i : Nat} {a : Argument}
    {raw : String} (hne : st.stack ≠ [])
    (hres : resolveTok (st.stack.map Entry.cmd) arg = some (.argR i a raw)) :
    ∃ e, st.stack.get? i = some e ∧ raw = (extractComponents arg).2 ∧
      consume st arg = setArgAt { st with allowSubcommands := false } i a raw := by
  obtain ⟨top, rest, hstk⟩ : ∃ top rest, st.stack = top :: rest := by
    cases hs : st.stack with
    | nil => exact absurd hs hne
    | cons a b => exact ⟨a, b, rfl⟩
  by_cases hdd : isDoubleDashTok arg
  · by_cases hemp : (extractComponents arg).2 = ""
    · rw [resolveTok, if_pos hdd, if_pos hemp] at hres
      cases hff : findFirst? (fun c => lookupKey c.flags (extractComponents arg).1)
          (st.stack.map Entry.cmd) with
      | none => rw [hff] at hres; simp at hres
      | some q => rw [hff] at hres; simp at hres
    · rw [resolveTok, if_pos hdd, if_neg hemp, findFirst?_map] at hres
      cases hff : findFirst? (fun e => lookupKey e.cmd.args (extractComponents arg).1) st.stack with
      | none => rw [hff] at hres; simp at hres
      | some q =>
        obtain ⟨j, b⟩ := q
        rw [hff] at hres
        simp only [Option.map_some', Option.some.injEq, Resolved.argR.injEq] at hres
        obtain ⟨rfl, rfl, rfl⟩ := hres
        obtain ⟨e, hget, _, _⟩ := findFirst?_some_spec hff
        refine ⟨e, hget, rfl, ?_⟩
        rw [consume_ddash st arg top rest hstk hdd, if_neg hemp, hff]
  · by_cases hsd : isDashTok arg
    · by_cases hemp : (extractComponents arg).2 = ""
      · rw [resolveTok, if_neg hdd, if_pos hsd, if_pos hemp] at hres
        cases hff : findFirst? (fun c => lookupKey c.flagsByShortName (extractComponents arg).1)
            (st.stack.map Entry.cmd) with
        | none => rw [hff] at hres; simp at hres
        | some q => rw [hff] at hres; simp at hres
      · rw [resolveTok, if_neg hdd, if_pos hsd, if_neg hemp, findFirst?_map] at hres
        cases hff : findFirst? (fun e => lookupKey e.cmd.argsByShortName (extractComponents arg).1) st.stack with
        | none => rw [hff] at hres; simp at hres
        | some q =>
          obtain ⟨j, b⟩ := q
          rw [hff] at hres
          simp only [Option.map_some', Option.some.injEq, Resolved.argR.injEq] at hres
          obtain ⟨rfl, rfl, rfl⟩ := hres
          obtain ⟨e, hget, _, _⟩ := findFirst?_some_spec hff
          refine ⟨e, hget, rfl, ?_⟩
          rw [consume_sdash st arg top rest hstk (by simpa using hdd) hsd, if_neg hemp, hff]
    · rw [resolveTok, if_neg hdd, if_neg hsd] at hres
      simp at hres

/-! ## Legal-tail bookkeeping lemmas -/

theorem legalTail_argPair_not_seen {cmds : List Command} {toks : List String}
    {seenF seenA : List (Nat × String)} {t : String} {i : Nat} {a : Argument} {raw : String}
    (hleg : legalTailB cmds toks seenF seenA = true)
    (hmem : t ∈ toks) (hres : resolveTok cmds t = some (.argR i a raw)) :
    (i, a.name) ∉ seenA := by
  induction toks generalizing seenF seenA with
  | nil => simp at hmem
  | cons u rest ih =>
    rw [legalTailB] at hleg
    rcases List.mem_cons.mp hmem with rfl | hmem'
    · rw [hres] at hleg
      by_cases hseen : (i, a.name) ∈ seenA
      · simp [hseen] at hleg
      · exact hseen
    · cases hru : resolveTok cmds u with
      | none => rw [hru] at hleg; simp at hleg
      | some r =>
        rw [hru] at hleg
        cases r with
        | flagR j g =>
          by_cases hseen : (j, g.name) ∈ seenF
          · simp [hseen] at hleg
          · simp only [if_neg hseen] at hleg
            exact ih hleg hmem'
        | argR j b rw' =>
          by_cases hseen : (j, b.name) ∈ seenA
          · simp [hseen] at hleg
          · simp only [if_neg hseen] at hleg
            cases hchk : b.checkValue rw' with
            | error msg => simp [hchk] at hleg
            | ok v =>
              simp only [hchk] at hleg
              have := ih hleg hmem'
              intro hcontra
              exact this (List.mem_cons_of_mem _ hcontra)

theorem flagsAt_mem {cmds : List Command} {toks : List String} {i : Nat} {f : Flag}
    {t : String} (hmem : t ∈ toks) (hres : resolveTok cmds t = some (.flagR i f)) :
    f.name ∈ flagsAt cmds toks i := by
  apply List.mem_filterMap.mpr
  exact ⟨t, hmem, by rw [hres]; simp⟩

theorem legalTail_argsAt_lookup {cmds : List Command} {toks : List String}
    {seenF seenA : List (Nat × String)} {t : String} {i : Nat} {a : Argument} {raw : String}
    (hleg : legalTailB cmds toks seenF seenA = true)
    (hmem : t ∈ toks) (hres : resolveTok cmds t = some (.argR i a raw)) :
    ∃ v, a.checkValue raw = .ok v ∧ lookupKey (argsAt cmds toks i) a.name = some v := by
  induction toks generalizing seenF seenA with
  | nil => simp at hmem
  | cons u rest ih =>
    rw [legalTailB] at hleg
    rcases List.mem_cons.mp hmem with rfl | hmem'
    · rw [hres] at hleg
      by_cases hseen : (i, a.name) ∈ seenA
      · simp [hseen] at hleg
      · simp only [if_neg hseen] at hleg
        cases hchk : a.checkValue raw with
        | error msg => simp [hchk] at hleg
        | ok v =>
          refine ⟨v, rfl, ?_⟩
          simp only [argsAt, List.filterMap_cons, hres, hchk]
          simp [lookupKey, argsAt]
    · cases hru : resolveTok cmds u with
      | none => rw [hru] at hleg; simp at hleg
      | some r =>
        rw [hru] at hleg
        cases r with
        | flagR j g =>
          by_cases hseen : (j, g.name) ∈ seenF
          · simp [hseen] at hleg
          · simp only [if_neg hseen] at hleg
            obtain ⟨v, hchk, hlook⟩ := ih hleg hmem'
            refine ⟨v, hchk, ?_⟩
            simp only [argsAt, List.filterMap_cons, hru]
            simpa [argsAt] using hlook
        | argR j b rw' =>
          by_cases hseen : (j, b.name) ∈ seenA
          · simp [hseen] at hleg
          · simp only [if_neg hseen] at hleg
            cases hchk : b.checkValue rw' with
            | error msg => simp [hchk] at hleg
            | ok w =>
              simp only [hchk] at hleg
              obtain ⟨v, hchkv, hlook⟩ := ih hleg hmem'
              refine ⟨v, hchkv, ?_⟩
              simp only [argsAt, List.filterMap_cons, hru, hchk]
              by_cases hij : j = i
              · subst hij
                have hne : b.name ≠ a.name := by
                  intro hcontra
                  have := legalTail_argPair_not_seen hleg hmem' hres
                  exact this (hcontra ▸ List.mem_cons_self _ _)
                simp only [if_pos rfl, lookupKey, hne, if_false]
                simpa [argsAt] using hlook
              · rw [if_neg hij]
                simpa [argsAt] using hlook

theorem resolveTok_nil (t : String) : resolveTok [] t = none := by
  simp [resolveTok, findFirst?]

theorem flagsAt_cons_flag_eq {cmds : List Command} {t : String} {rest : List String}
    {i : Nat} {f : Flag} (hres : resolveTok cmds t = some (.flagR i f)) :
    flagsAt cmds (t :: rest) i = f.name :: flagsAt cmds rest i := by
  simp [flagsAt, List.filterMap_cons, hres]

theorem flagsAt_cons_flag_ne {cmds : List Command} {t : String} {rest : List String}
    {i j : Nat} {f : Flag} (hres : resolveTok cmds t = some (.flagR j f)) (hne : j ≠ i) :
    flagsAt cmds (t :: rest) i = flagsAt cmds rest i := by
  simp only [flagsAt, List.filterMap_cons, hres, if_neg hne]

theorem flagsAt_cons_arg {cmds : List Command} {t : String} {rest : List String}
    {i j : Nat} {a : Argument} {raw : String}
    (hres : resolveTok cmds t = some (.argR j a raw)) :
    flagsAt cmds (t :: rest) i = flagsAt cmds rest i := by
  simp only [flagsAt, List.filterMap_cons, hres]

theorem argsAt_cons_arg_eq {cmds : List Command} {t : String} {rest : List String}
    {i : Nat} {a : Argument} {raw : String} {v : Value}
    (hres : resolveTok cmds t = some (.argR i a raw)) (hchk : a.checkValue raw = .ok v) :
    argsAt cmds (t :: rest) i = (a.name, v) :: argsAt cmds rest i := by
  simp [argsAt, List.filterMap_cons, hres, hchk]

theorem argsAt_cons_arg_ne {cmds : List Command} {t : String} {rest : List String}
    {i j : Nat} {a : Argument} {raw : String}
    (hres : resolveTok cmds t = some (.argR j a raw)) (hne : j ≠ i) :
    argsAt cmds (t :: rest) i = argsAt cmds rest i := by
  simp only [argsAt, List.filterMap_cons, hres, if_neg hne]

theorem argsAt_cons_flag {cmds : List Command} {t : String} {rest : List String}
    {i j : Nat} {f : Flag} (hres : resolveTok cmds t = some (.flagR j f)) :
    argsAt cmds (t :: rest) i = argsAt cmds rest i := by
  simp only [argsAt, List.filterMap_cons, hres]

/-! ## The tail phase: consuming a legal run of flag and argument tokens -/

theorem consumeAll_tail {toks : List String} {st : ParserState}
    {seenF seenA : List (Nat × String)}
    (hleg : legalTailB (st.stack.map Entry.cmd) toks seenF seenA = true)
    (hinvF : ∀ i e n, st.stack.get? i = some e → n ∈ e.frame.flags → (i, n) ∈ seenF)
    (hinvA : ∀ i e n, st.stack.get? i = some e →
      (lookupKey e.frame.arguments n).isSome → (i, n) ∈ seenA) :
    ∃ st', consumeAll st toks = .ok st' ∧
      st'.stack.map Entry.cmd = st.stack.map Entry.cmd ∧
      ∀ i e, st.stack.get? i = some e → ∃ e', st'.stack.get? i = some e' ∧
        e'.cmd = e.cmd ∧
        e'.frame.flags = e.frame.flags ++ flagsAt (st.stack.map Entry.cmd) toks i ∧
        e'.frame.arguments = e.frame.arguments ++ argsAt (st.stack.map Entry.cmd) toks i ∧
        e'.frame.subcommandName = e.frame.subcommandName ∧
        e'.frame.primaryArg = e.frame.primaryArg := by
  induction toks generalizing st seenF seenA with
  | nil =>
    refine ⟨st, rfl, rfl, ?_⟩
    intro i e hget
    exact ⟨e, hget, rfl, by simp [flagsAt], by simp [argsAt], rfl, rfl⟩
  | cons t rest ih =>
    rw [legalTailB] at hleg
    cases hres : resolveTok (st.stack.map Entry.cmd) t with
    | none => rw [hres] at hleg; simp at hleg
    | some r =>
      rw [hres] at hleg
      have hne : st.stack ≠ [] := by
        intro hnil
        rw [hnil] at hres
        rw [List.map_nil, resolveTok_nil] at hres
        exact Option.noConfusion hres
      cases r with
      | flagR i f =>
        by_cases hseen : (i, f.name) ∈ seenF
        · simp [hseen] at hleg
        · simp only [if_neg hseen] at hleg
          obtain ⟨e, hget, hcons⟩ := consume_resolved_flag hne hres
          have hnotmem : f.name ∉ e.frame.flags := fun hm => hseen (hinvF i e f.name hget hm)
          obtain ⟨stk', hok, hcmd, hlen, hgeti, hother⟩ := setFlagInStack_ok_spec hget hnotmem
          have hconsume : consume st t =
              .ok ⟨stk', st.events ++ (if f.hasAction then [f.name] else []), false⟩ := by
            rw [hcons]
            simp [setFlagAt, hok]
          have hleg₂ : legalTailB
              ((⟨stk', st.events ++ (if f.hasAction then [f.name] else []), false⟩ :
                ParserState).stack.map Entry.cmd) rest ((i, f.name) :: seenF) seenA = true := by
            simpa [hcmd] using hleg
          have hinvF₂ : ∀ i' e' n,
              (⟨stk', st.events ++ (if f.hasAction then [f.name] else []), false⟩ :
                ParserState).stack.get? i' = some e' →
              n ∈ e'.frame.flags → (i', n) ∈ (i, f.name) :: seenF := by
            intro i' e' n hget' hn
            simp only at hget'
            by_cases hi : i' = i
            · subst hi
              rw [hgeti] at hget'
              obtain rfl := Option.some.inj hget'
              simp only at hn
              rcases List.mem_append.mp hn with h1 | h2
              · exact List.mem_cons_of_mem _ (hinvF i' e n hget h1)
              · rw [List.mem_singleton.mp h2]
                exact List.mem_cons_self _ _
            · rw [hother i' hi] at hget'
              exact List.mem_cons_of_mem _ (hinvF i' e' n hget' hn)
          have hinvA₂ : ∀ i' e' n,
              (⟨stk', st.events ++ (if f.hasAction then [f.name] else []), false⟩ :
                ParserState).stack.get? i' = some e' →
              (lookupKey e'.frame.arguments n).isSome → (i', n) ∈ seenA := by
            intro i' e' n hget' hn
            simp only at hget'
            by_cases hi : i' = i
            · subst hi
              rw [hgeti] at hget'
              obtain rfl := Option.some.inj hget'
              exact hinvA i' e n hget hn
            · rw [hother i' hi] at hget'
              exact hinvA i' e' n hget' hn
          obtain ⟨st', hca, hcm', hframes⟩ := ih hleg₂ hinvF₂ hinvA₂
          refine ⟨st', ?_, ?_, ?_⟩
          · rw [consumeAll, hconsume]
            exact hca
          · rw [hcm']
            simpa using hcmd
          · intro i' e₀ hget₀
            by_cases hi : i' = i
            · subst hi
              obtain rfl : e₀ = e := Option.some.inj (hget₀.symm.trans hget)
              obtain ⟨e'', hget'', hcmd'', hfl, har, hsn, hpa⟩ := hframes i' _ hgeti
              refine ⟨e'', hget'', by simpa using hcmd'', ?_, ?_, by simpa using hsn,
                by simpa using hpa⟩
              · rw [hfl]
                simp only [hcmd]
                rw [flagsAt_cons_flag_eq hres]
                simp
              · rw [har]
                simp only [hcmd]
                rw [argsAt_cons_flag hres]
            · obtain ⟨e'', hget'', hcmd'', hfl, har, hsn, hpa⟩ :=
                hframes i' e₀ (by rw [hother i' hi]; exact hget₀)
              refine ⟨e'', hget'', hcmd'', ?_, ?_, hsn, hpa⟩
              · rw [hfl]
                simp only [hcmd]
                rw [flagsAt_cons_flag_ne hres (fun hc => hi hc.symm)]
              · rw [har]
                simp only [hcmd]
                rw [argsAt_cons_flag hres]
      | argR i a raw =>
        by_cases hseen : (i, a.name) ∈ seenA
        · simp [hseen] at hleg
        · simp only [if_neg hseen] at hleg
          cases hchk : a.checkValue raw with
          | error msg => simp [hchk] at hleg
          | ok v =>
            simp only [hchk] at hleg
            obtain ⟨e, hget, hraw, hcons⟩ := consume_resolved_arg hne hres
            have hnotmem : lookupKey e.frame.arguments a.name = none := by
              cases hl : lookupKey e.frame.arguments a.name with
              | none => rfl
              | some w =>
                exact absurd (hinvA i e a.name hget (by rw [hl]; rfl)) hseen
            obtain ⟨stk', hok, hcmd, hlen, hgeti, hother⟩ :=
              setArgInStack_ok_spec hget hnotmem hchk
            have hconsume : consume st t = .ok ⟨stk', st.events, false⟩ := by
              rw [hcons]
              simp [setArgAt, hok]
            have hleg₂ : legalTailB
                ((⟨stk', st.events, false⟩ : ParserState).stack.map Entry.cmd) rest
                seenF ((i, a.name) :: seenA) = true := by
              simpa [hcmd] using hleg
            have hinvF₂ : ∀ i' e' n,
                (⟨stk', st.events, false⟩ : ParserState).stack.get? i' = some e' →
                n ∈ e'.frame.flags → (i', n) ∈ seenF := by
              intro i' e' n hget' hn
              simp only at hget'
              by_cases hi : i' = i
              · subst hi
                rw [hgeti] at hget'
                obtain rfl := Option.some.inj hget'
                exact hinvF i' e n hget hn
              · rw [hother i' hi] at hget'
                exact hinvF i' e' n hget' hn
            have hinvA₂ : ∀ i' e' n,
                (⟨stk', st.events, false⟩ : ParserState).stack.get? i' = some e' →
                (lookupKey e'.frame.arguments n).isSome → (i', n) ∈ (i, a.name) :: seenA := by
              intro i' e' n hget' hn
              simp only at hget'
              by_cases hi : i' = i
              · subst hi
                rw [hgeti] at hget'
                obtain rfl := Option.some.inj hget'
                simp only at hn
                by_cases hname : a.name = n
                · rw [hname]
                  exact List.mem_cons_self _ _
                · have hl : lookupKey (e.frame.arguments ++ [(a.name, v)]) n =
                      lookupKey e.frame.arguments n := by
                    cases hl0 : lookupKey e.frame.arguments n with
                    | some w => exact lookupKey_append_some hl0
                    | none =>
                      rw [lookupKey_append_none hl0]
                      simp [lookupKey, hname]
                  rw [hl] at hn
                  exact List.mem_cons_of_mem _ (hinvA i' e n hget hn)
              · rw [hother i' hi] at hget'
                exact List.mem_cons_of_mem _ (hinvA i' e' n hget' hn)
            obtain ⟨st', hca, hcm', hframes⟩ := ih hleg₂ hinvF₂ hinvA₂
            refine ⟨st', ?_, ?_, ?_⟩
            · rw [consumeAll, hconsume]
              exact hca
            · rw [hcm']
              simpa using hcmd
            · intro i' e₀ hget₀
              by_cases hi : i' = i
              · subst hi
                obtain rfl : e₀ = e := Option.some.inj (hget₀.symm.trans hget)
                obtain ⟨e'', hget'', hcmd'', hfl, har, hsn, hpa⟩ := hframes i' _ hgeti
                refine ⟨e'', hget'', by simpa using hcmd'', ?_, ?_, by simpa using hsn,
                  by simpa using hpa⟩
                · rw [hfl]
                  simp only [hcmd]
                  rw [flagsAt_cons_arg hres]
                · rw [har]
                  simp only [hcmd]
                  rw [argsAt_cons_arg_eq hres hchk]
                  simp
              · obtain ⟨e'', hget'', hcmd'', hfl, har, hsn, hpa⟩ :=
                  hframes i' e₀ (by rw [hother i' hi]; exact hget₀)
                refine ⟨e'', hget'', hcmd'', ?_, ?_, hsn, hpa⟩
                · rw [hfl]
                  simp only [hcmd]
                  rw [flagsAt_cons_arg hres]
                · rw [har]
                  simp only [hcmd]
                  rw [argsAt_cons_arg_ne hres (fun hc => hi hc.symm)]

/-! ## The chain phase: consuming the subcommand prefix -/

theorem chainSplit_nil (cs : List Command) : chainSplit cs [] = (cs, []) := by
  rw [chainSplit.eq_def]

theorem chainSplit_cons_dash {t : String} (cs : List Command) (rest : List String)
    (hsd : isDashTok t = true) : chainSplit cs (t :: rest) = (cs, t :: rest) := by
  rw [chainSplit.eq_def]
  simp [hsd]

theorem chainSplit_cons_hit {t : String} {c : Command} {sub : Command}
    (cs : List Command) (rest : List String) (hsd : isDashTok t = false)
    (hlu : lookupKey c.subcommands t = some sub) :
    chainSplit (c :: cs) (t :: rest) = chainSplit (sub :: c :: cs) rest := by
  rw [chainSplit.eq_def]
  simp [hsd, hlu]

theorem chainSplit_cons_miss {t : String} {c : Command}
    (cs : List Command) (rest : List String) (hsd : isDashTok t = false)
    (hlu : lookupKey c.subcommands t = none) :
    chainSplit (c :: cs) (t :: rest) = (c :: cs, t :: rest) := by
  rw [chainSplit.eq_def]
  simp [hsd, hlu]

theorem consumeAll_chain {toks : List String} {st : ParserState}
    (hallow : st.allowSubcommands = true)
    (hne : st.stack ≠ [])
    (hvalid : ∀ c ∈ st.stack.map Entry.cmd, Command.Valid c)
    (hempty : ∀ e ∈ st.stack, e.frame.flags = [] ∧ e.frame.arguments = []) :
    ∃ st', consumeAll st toks = consumeAll st' (chainSplit (st.stack.map Entry.cmd) toks).2 ∧
      st'.stack.map Entry.cmd = (chainSplit (st.stack.map Entry.cmd) toks).1 ∧
      st'.allowSubcommands = true ∧ st'.stack ≠ [] ∧
      (∀ c ∈ st'.stack.map Entry.cmd, Command.Valid c) ∧
      (∀ e ∈ st'.stack, e.frame.flags = [] ∧ e.frame.arguments = []) := by
  induction toks generalizing st with
  | nil => exact ⟨st, by rw [chainSplit_nil], by rw [chainSplit_nil], hallow, hne, hvalid, hempty⟩
  | cons t rest ih =>
    obtain ⟨top, rest', hstk⟩ : ∃ top rest', st.stack = top :: rest' := by
      cases hs : st.stack with
      | nil => exact absurd hs hne
      | cons a b => exact ⟨a, b, rfl⟩
    by_cases hsd : isDashTok t
    · refine ⟨st, ?_, ?_, hallow, hne, hvalid, hempty⟩
      · rw [chainSplit_cons_dash _ _ hsd]
      · rw [chainSplit_cons_dash _ _ hsd]
    · have hmap : st.stack.map Entry.cmd = top.cmd :: rest'.map Entry.cmd := by
        rw [hstk, List.map_cons]
      cases hlu : lookupKey top.cmd.subcommands t with
      | none =>
        refine ⟨st, ?_, ?_, hallow, hne, hvalid, hempty⟩
        · rw [hmap, chainSplit_cons_miss _ _ (by simpa using hsd) hlu, ← hmap]
        · rw [hmap, chainSplit_cons_miss _ _ (by simpa using hsd) hlu, ← hmap]
      | some sub =>
        have hvtop : Command.Valid top.cmd := hvalid top.cmd (by rw [hmap]; exact List.mem_cons_self _ _)
        have hsubne : top.cmd.subcommands ≠ [] :=
          List.ne_nil_of_mem (lookupKey_some_mem hlu)
        have hprim : top.cmd.primaryArg = none := hvtop.primNone hsubne
        have hcons : consume st t =
            .ok { st with stack := ⟨sub, emptyFrame⟩ ::
              { top with frame := { top.frame with subcommandName := sub.name } } :: rest' } := by
          rw [consume_bare st t top rest' hstk (by simpa using hsd)]
          rw [hprim]
          simp only [Option.isSome_none, Bool.false_eq_true, if_false, hallow, if_true, hlu]
        set st₂ : ParserState := { st with stack := ⟨sub, emptyFrame⟩ ::
          { top with frame := { top.frame with subcommandName := sub.name } } :: rest' } with hst₂
        have hmap₂ : st₂.stack.map Entry.cmd = sub :: st.stack.map Entry.cmd := by
          rw [hst₂, hmap]
          simp
        have hallow₂ : st₂.allowSubcommands = true := hallow
        have hne₂ : st₂.stack ≠ [] := by simp [hst₂]
        have hvalid₂ : ∀ c ∈ st₂.stack.map Entry.cmd, Command.Valid c := by
          intro c hc
          rw [hmap₂] at hc
          rcases List.mem_cons.mp hc with rfl | hc'
          · exact hvtop.child (lookupKey_some_mem hlu)
          · exact hvalid c hc'
        have hempty₂ : ∀ e ∈ st₂.stack, e.frame.flags = [] ∧ e.frame.arguments = [] := by
          intro e he
          rw [hst₂] at he
          simp only [List.mem_cons] at he
          rcases he with rfl | rfl | he'
          · exact ⟨rfl, rfl⟩
          · have := hempty top (by rw [hstk]; exact List.mem_cons_self _ _)
            exact this
          · exact hempty e (by rw [hstk]; exact List.mem_cons_of_mem _ he')
        obtain ⟨st', hca, hcm, hal, hn, hv, hemp⟩ := ih hallow₂ hne₂ hvalid₂ hempty₂
        have hsplit : chainSplit (st.stack.map Entry.cmd) (t :: rest) =
            chainSplit (sub :: st.stack.map Entry.cmd) rest := by
          rw [hmap, chainSplit_cons_hit _ _ (by simpa using hsd) hlu]
        refine ⟨st', ?_, ?_, hal, hn, hv, hemp⟩
        · rw [consumeAll, hcons, hsplit, ← hmap₂]
          exact hca
        · rw [hsplit, ← hmap₂]
          exact hcm

/-! ## Finalization lemmas: default fill-in and result assembly -/

theorem get?_some_lt {α : Type} {l : List α} {i : Nat} {x : α}
    (h : l.get? i = some x) : i < l.length := by
  induction l generalizing i with
  | nil => simp at h
  | cons y rest ih =>
    cases i with
    | zero => simp
    | succ i' => have := @ih i' h; simpa using Nat.succ_lt_succ this

theorem get?_map_comm {α β : Type} (f : α → β) (l : List α) (i : Nat) :
    (l.map f).get? i = (l.get? i).map f := by
  induction l generalizing i with
  | nil => simp
  | cons y rest ih =>
    cases i with
    | zero => rfl
    | succ i' => exact ih i'

theorem addDefaults_extends (ex : List (String × Value)) (args : List (String × Argument)) :
    ∃ tl, addDefaults ex args = ex ++ tl := by
  induction args generalizing ex with
  | nil => exact ⟨[], by simp [addDefaults]⟩
  | cons p rest ih =>
    obtain ⟨k, a⟩ := p
    rw [addDefaults]
    cases hd : a.getDefaultValue with
    | none => exact ih ex
    | some d =>
      by_cases hex : (lookupKey ex a.name).isSome
      · simp only [if_pos hex]
        exact ih ex
      · simp only [if_neg hex]
        obtain ⟨tl, htl⟩ := ih (ex ++ [(a.name, d)])
        exact ⟨(a.name, d) :: tl, by rw [htl, List.append_assoc]; rfl⟩

theorem addDefaults_default_hit {ex : List (String × Value)} {args : List (String × Argument)}
    {k : String} {a : Argument} {d : Value}
    (hmem : (k, a) ∈ args)
    (hkeys : ∀ p ∈ args, p.1 = (p.2 : Argument).name)
    (hdist : (args.map Prod.fst).Nodup)
    (hdef : a.getDefaultValue = some d)
    (hnone : lookupKey ex a.name = none) :
    lookupKey (addDefaults ex args) a.name = some d := by
  induction args generalizing ex with
  | nil => simp at hmem
  | cons p rest ih =>
    obtain ⟨k₀, a₀⟩ := p
    rcases List.mem_cons.mp hmem with heq | hmem'
    · obtain ⟨rfl, rfl⟩ : k = k₀ ∧ a = a₀ := by
        have := Prod.mk.injEq k a k₀ a₀ ▸ heq
        exact ⟨congrArg Prod.fst heq, congrArg Prod.snd heq⟩
      simp only [addDefaults, hdef]
      rw [if_neg (by rw [hnone]; simp)]
      obtain ⟨tl, htl⟩ := addDefaults_extends (ex ++ [(a.name, d)]) rest
      rw [htl, List.append_assoc, lookupKey_append_none hnone]
      simp [lookupKey]
    · have hk₀ : k₀ = a₀.name := hkeys (k₀, a₀) (List.mem_cons_self _ _)
      have hka : k = a.name := hkeys (k, a) (List.mem_cons_of_mem _ hmem')
      have hnd : k₀ ∉ rest.map Prod.fst ∧ (rest.map Prod.fst).Nodup := by
        rw [List.map_cons] at hdist
        exact List.nodup_cons.mp hdist
      have hne : a₀.name ≠ a.name := by
        intro hcontra
        apply hnd.1
        apply List.mem_map.mpr
        refine ⟨(k, a), hmem', ?_⟩
        simp only [hka, hk₀, hcontra]
      have hkeys' : ∀ p ∈ rest, p.1 = (p.2 : Argument).name :=
        fun p hp => hkeys p (List.mem_cons_of_mem _ hp)
      have hdist' : (rest.map Prod.fst).Nodup := hnd.2
      cases hd : a₀.getDefaultValue with
      | none =>
        simp only [addDefaults, hd]
        exact ih hmem' hkeys' hdist' hnone
      | some d₀ =>
        by_cases hex : (lookupKey ex a₀.name).isSome
        · simp only [addDefaults, hd, if_pos hex]
          exact ih hmem' hkeys' hdist' hnone
        · simp only [addDefaults, hd, if_neg hex]
          apply ih hmem' hkeys' hdist'
          rw [lookupKey_append_none hnone]
          simp [lookupKey, hne]

theorem assembleRootFirst_scopeAt {l : List Entry} {r : ArgParseResult}
    (h : assembleRootFirst l = some r) :
    ∀ {j : Nat} {e : Entry}, l.get? j = some e →
    ∃ sc, r.scopeAt j = some sc ∧ sc.flags = e.frame.flags ∧
      sc.arguments = e.frame.arguments ∧ sc.primaryArg = e.frame.primaryArg ∧
      sc.subcommandName = e.frame.subcommandName := by
  induction l generalizing r with
  | nil => intro j e hget; simp at hget
  | cons x rest ih =>
    intro j e hget
    rw [assembleRootFirst] at h
    obtain rfl := Option.some.inj h
    cases j with
    | zero =>
      obtain rfl := Option.some.inj hget
      exact ⟨_, rfl, rfl, rfl, rfl, rfl⟩
    | succ j' =>
      cases hrest : assembleRootFirst rest with
      | none =>
        cases rest with
        | nil => simp at hget
        | cons y ys =>
          rw [assembleRootFirst] at hrest
          exact Option.noConfusion hrest
      | some r' =>
        obtain ⟨sc, hsc, h1, h2, h3, h4⟩ := ih hrest hget
        refine ⟨sc, ?_, h1, h2, h3, h4⟩
        show ArgParseResult.scopeAt _ (j' + 1) = some sc
        rw [ArgParseResult.scopeAt]
        simp only [frameToResult, ArgParseResult.subcommandRes, hrest]
        exact hsc

theorem assembleRootFirst_isSome {l : List Entry} (h : l ≠ []) :
    ∃ r, assembleRootFirst l = some r := by
  cases l with
  | nil => exact absurd rfl h
  | cons e rest => exact ⟨_, rfl⟩

theorem get?_reverse' {α : Type} {l : List α} {i : Nat} (h : i < l.length) :
    l.reverse.get? i = l.get? (l.length - 1 - i) := by
  rw [List.get?_eq_getElem?, List.get?_eq_getElem?, List.getElem?_reverse h]

theorem exists_get?_of_lt {α : Type} {l : List α} {i : Nat} (h : i < l.length) :
    ∃ x, l.get? i = some x := by
  induction l generalizing i with
  | nil => simp at h
  | cons y rest ih =>
    cases i with
    | zero => exact ⟨y, rfl⟩
    | succ i' => exact ih (Nat.lt_of_succ_lt_succ h)

theorem get?_mem {α : Type} {l : List α} {i : Nat} {x : α} (h : l.get? i = some x) :
    x ∈ l := by
  induction l generalizing i with
  | nil => simp at h
  | cons y rest ih =>
    cases i with
    | zero => exact Option.some.inj h ▸ List.mem_cons_self _ _
    | succ i' => exact List.mem_cons_of_mem _ (ih h)

theorem findFirst?_fst_lt {β α : Type} {f : β → Option α} {l : List β} {i : Nat} {a : α}
    (h : findFirst? f l = some (i, a)) : i < l.length := by
  obtain ⟨e, hget, _, _⟩ := findFirst?_some_spec h
  exact get?_some_lt hget

/-- the stack depth a resolved token refers to. -/
def Resolved.depth : Resolved → Nat
  | .flagR i _ => i
  | .argR i _ _ => i

theorem resolveTok_depth_lt {cmds : List Command} {t : String} {r : Resolved}
    (h : resolveTok cmds t = some r) : r.depth < cmds.length := by
  by_cases hdd : isDoubleDashTok t
  · by_cases hemp : (extractComponents t).2 = ""
    · rw [resolveTok, if_pos hdd, if_pos hemp] at h
      cases hff : findFirst? (fun c => lookupKey c.flags (extractComponents t).1) cmds with
      | none => rw [hff] at h; simp at h
      | some q =>
        rw [hff] at h
        obtain rfl := Option.some.inj h
        exact findFirst?_fst_lt hff
    · rw [resolveTok, if_pos hdd, if_neg hemp] at h
      cases hff : findFirst? (fun c => lookupKey c.args (extractComponents t).1) cmds with
      | none => rw [hff] at h; simp at h
      | some q =>
        rw [hff] at h
        obtain rfl := Option.some.inj h
        exact findFirst?_fst_lt hff
  · by_cases hsd : isDashTok t
    · by_cases hemp : (extractComponents t).2 = ""
      · rw [resolveTok, if_neg hdd, if_pos hsd, if_pos hemp] at h
        cases hff : findFirst? (fun c => lookupKey c.flagsByShortName (extractComponents t).1) cmds with
        | none => rw [hff] at h; simp at h
        | some q =>
          rw [hff] at h
          obtain rfl := Option.some.inj h
          exact findFirst?_fst_lt hff
      · rw [resolveTok, if_neg hdd, if_pos hsd, if_neg hemp] at h
        cases hff : findFirst? (fun c => lookupKey c.argsByShortName (extractComponents t).1) cmds with
        | none => rw [hff] at h; simp at h
        | some q =>
          rw [hff] at h
          obtain rfl := Option.some.inj h
          exact findFirst?_fst_lt hff
    · rw [resolveTok, if_neg hdd, if_neg hsd] at h
      simp at h

/-! ## Claim C1 -/

/-- C1: for every valid command tree and every token sequence
consisting only of declared flags, named arguments and subcommands in
legal order (`legalSeq`), parsing succeeds; the Result marks every set
flag present in its resolved scope, maps every set named argument to
its parsed typed value, and maps every unset argument carrying a
default value — including a default equal to the type's zero value,
such as `some (Value.vInt 0)` — to that default. -/
theorem claim1_legal_sequences_parse (c : Command) (toks : List String)
    (cs : List Command) (tl : List String)
    (hv : Command.Valid c) (hl : legalSeq c toks = true)
    (hsplit : chainSplit [c] toks = (cs, tl)) :
    ∃ r, parse c toks = .ok r ∧
      (∀ t ∈ tl, ∀ i f, resolveTok cs t = some (.flagR i f) →
        ∃ sc, r.scopeAt (cs.length - 1 - i) = some sc ∧ sc.hasFlag f.name = true) ∧
      (∀ t ∈ tl, ∀ i a raw, resolveTok cs t = some (.argR i a raw) →
        ∃ sc v, r.scopeAt (cs.length - 1 - i) = some sc ∧
          a.checkValue raw = .ok v ∧ lookupKey sc.arguments a.name = some v) ∧
      (∀ i cmd_i, cs.get? i = some cmd_i →
        ∀ k a d, (k, a) ∈ cmd_i.args → a.getDefaultValue = some d →
        lookupKey (argsAt cs tl i) a.name = none →
        ∃ sc, r.scopeAt (cs.length - 1 - i) = some sc ∧
          lookupKey sc.arguments a.name = some d) := by
  have hstk0 : (initState c).stack.map Entry.cmd = [c] := rfl
  obtain ⟨st₁, hchain, hcm₁, hal₁, hne₁, hv₁, hemp₁⟩ :=
    @consumeAll_chain toks (initState c) rfl
      (by simp [initState])
      (by
        intro c' hc'
        rw [hstk0] at hc'
        obtain rfl := List.mem_singleton.mp hc'
        exact hv)
      (by
        intro e he
        simp only [initState, List.mem_singleton] at he
        subst he
        exact ⟨rfl, rfl⟩)
  rw [hstk0, hsplit] at hchain hcm₁
  replace hchain : consumeAll (initState c) toks = consumeAll st₁ tl := hchain
  replace hcm₁ : st₁.stack.map Entry.cmd = cs := hcm₁
  simp only [legalSeq, hsplit] at hl
  cases hcs : cs with
  | nil => rw [hcs] at hl; simp at hl
  | cons cur cs' =>
    rw [hcs] at hl
    simp only [Bool.and_eq_true, Bool.or_eq_true] at hl
    obtain ⟨hfin, htail⟩ := hl
    rw [← hcs] at htail
    rw [hcs] at hcm₁
    -- tail phase
    have hleg₁ : legalTailB (st₁.stack.map Entry.cmd) tl [] [] = true := by
      rw [hcm₁, ← hcs]
      exact htail
    have hinvF₁ : ∀ i e n, st₁.stack.get? i = some e → n ∈ e.frame.flags →
        (i, n) ∈ ([] : List (Nat × String)) := by
      intro i e n hget hn
      have := (hemp₁ e (get?_mem hget)).1
      rw [this] at hn
      simp at hn
    have hinvA₁ : ∀ i e n, st₁.stack.get? i = some e →
        (lookupKey e.frame.arguments n).isSome → (i, n) ∈ ([] : List (Nat × String)) := by
      intro i e n hget hn
      have := (hemp₁ e (get?_mem hget)).2
      rw [this] at hn
      simp [lookupKey] at hn
    obtain ⟨st₂, htailca, hcm₂, hframes⟩ := consumeAll_tail hleg₁ hinvF₁ hinvA₁
    have hca : consumeAll (initState c) toks = .ok st₂ := by
      rw [hchain]; exact htailca
    have hmap₂ : st₂.stack.map Entry.cmd = cur :: cs' := by
      rw [hcm₂, hcm₁]
    cases hstk₂ : st₂.stack with
    | nil => rw [hstk₂] at hmap₂; exact absurd hmap₂ (by simp)
    | cons e₀ r₂ =>
      have he₀ : e₀.cmd = cur := by
        rw [hstk₂, List.map_cons] at hmap₂
        exact (List.cons.injEq .. ▸ hmap₂).1
      have hcond : ¬(0 < e₀.cmd.subcommands.length ∧ e₀.cmd.requiresSubcommand = true) := by
        rw [he₀]
        rcases hfin with h1 | h1
        · intro hcontra
          rw [List.isEmpty_iff] at h1
          rw [h1] at hcontra
          simp at hcontra
        · intro hcontra
          rw [Bool.not_eq_true'] at h1
          rw [h1] at hcontra
          simp at hcontra
      have hrevne : ((st₂.stack.map fillDefaultsEntry).reverse) ≠ [] := by
        rw [hstk₂]
        simp
      obtain ⟨r, hr⟩ := assembleRootFirst_isSome hrevne
      have hparse : parse c toks = .ok r := by
        rw [parse.eq_def, hca]
        simp only [hstk₂]
        rw [if_neg hcond]
        rw [← hstk₂, hr]
      -- lengths
      have hlenst₁ : st₁.stack.length = (cur :: cs').length := by
        rw [← hcm₁, List.length_map]
      have hlenst₂ : st₂.stack.length = (cur :: cs').length := by
        rw [← hmap₂, List.length_map]
      -- the per-level scope description
      have scope_spec : ∀ i, i < (cur :: cs').length →
          ∃ e' sc, st₂.stack.get? i = some e' ∧
            (cur :: cs').get? i = some e'.cmd ∧
            r.scopeAt ((cur :: cs').length - 1 - i) = some sc ∧
            sc.flags = flagsAt (cur :: cs') tl i ∧
            sc.arguments = addDefaults (argsAt (cur :: cs') tl i) e'.cmd.args := by
        intro i hi
        obtain ⟨e, hget₁⟩ := @exists_get?_of_lt Entry st₁.stack i
          (by rw [hlenst₁]; exact hi)
        obtain ⟨hfl0, har0⟩ := hemp₁ e (get?_mem hget₁)
        obtain ⟨e', hget₂, hcmd', hfl, har, _, _⟩ := hframes i e hget₁
        have hecmd : (cur :: cs').get? i = some e.cmd := by
          rw [← hcm₁, get?_map_comm, hget₁]
          rfl
        have hflags : e'.frame.flags = flagsAt (cur :: cs') tl i := by
          rw [hfl, hfl0, hcm₁]
          simp
        have hargs : e'.frame.arguments = argsAt (cur :: cs') tl i := by
          rw [har, har0, hcm₁]
          simp
        have hrevget : ((st₂.stack.map fillDefaultsEntry).reverse).get?
            ((cur :: cs').length - 1 - i) = some (fillDefaultsEntry e') := by
          have hlenmap : (st₂.stack.map fillDefaultsEntry).length = (cur :: cs').length := by
            rw [List.length_map, hlenst₂]
          have hlt : (cur :: cs').length - 1 - i < (st₂.stack.map fillDefaultsEntry).length := by
            rw [hlenmap]
            simp only [List.length_cons] at hi ⊢
            omega
          rw [get?_reverse' hlt, hlenmap]
          have harith : (cur :: cs').length - 1 - ((cur :: cs').length - 1 - i) = i := by
            simp only [List.length_cons] at hi ⊢
            omega
          rw [harith, get?_map_comm, hget₂]
          rfl
        obtain ⟨sc, hsc, hscfl, hscar, _, _⟩ := assembleRootFirst_scopeAt hr hrevget
        refine ⟨e', sc, hget₂, by rw [hecmd, hcmd'], hsc, ?_, ?_⟩
        · rw [hscfl]
          simp only [fillDefaultsEntry]
          exact hflags
        · rw [hscar]
          simp only [fillDefaultsEntry]
          rw [hargs]
      refine ⟨r, hparse, ?_, ?_, ?_⟩
      · intro t hmem i f hres
        have hi : i < (cur :: cs').length := resolveTok_depth_lt hres
        obtain ⟨e', sc, _, _, hsc, hscfl, _⟩ := scope_spec i hi
        refine ⟨sc, hsc, ?_⟩
        have hmemfl : f.name ∈ sc.flags := by
          rw [hscfl]
          exact flagsAt_mem hmem hres
        unfold ArgParseResult.hasFlag
        exact decide_eq_true hmemfl
      · intro t hmem i a raw hres
        have hi : i < (cur :: cs').length := resolveTok_depth_lt hres
        obtain ⟨e', sc, _, _, hsc, _, hscar⟩ := scope_spec i hi
        obtain ⟨v, hchk, hlook⟩ := legalTail_argsAt_lookup (hcs ▸ htail) hmem hres
        refine ⟨sc, v, hsc, hchk, ?_⟩
        rw [hscar]
        obtain ⟨tl', htl'⟩ := addDefaults_extends (argsAt (cur :: cs') tl i) e'.cmd.args
        rw [htl']
        exact lookupKey_append_some hlook
      · intro i cmd_i hgetc k a d hmema hdef hnone
        have hi : i < (cur :: cs').length := get?_some_lt hgetc
        obtain ⟨e', sc, _, hecmd, hsc, _, hscar⟩ := scope_spec i hi
        obtain rfl : cmd_i = e'.cmd := Option.some.inj (hgetc.symm.trans hecmd)
        have hvcmd : Command.Valid e'.cmd := by
          apply hv₁
          rw [hcm₁]
          exact get?_mem hecmd
        refine ⟨sc, hsc, ?_⟩
        rw [hscar]
        exact addDefaults_default_hit hmema hvcmd.argKey hvcmd.argNodup hdef hnone

/-- the command tree of the C1 witness: the spec's running example of a
root command with a flag and an integer argument whose default is the
integer zero value. -/
def wFlag1 : Flag := ⟨"flag1", "f1", "", false⟩

def wIntArg : Argument := .intArg ⟨"int", "i", "", false, some (Value.vInt 0)⟩ none

def wCli1 : Command :=
  .mk "olive" "" true [("flag1", wFlag1)] [("f1", wFlag1)]
    [("int", wIntArg)] [("i", wIntArg)] none []

theorem wCli1_valid : Command.Valid wCli1 := by
  refine Command.Valid.intro _ ?_ ?_ ?_ ?_
  · intro h
    exact absurd rfl h
  · intro p hp
    simp only [wCli1, Command.args, List.mem_singleton] at hp
    subst hp
    rfl
  · show ([("int", wIntArg)].map Prod.fst).Nodup
    simp
  · intro p hp
    simp [wCli1, Command.subcommands] at hp

/-- witness for C1: the example tree parsed with a single flag token;
the flag is reported present and the unsupplied integer argument with
default 0 is filled in with 0. -/
theorem claim1_witness :
    Command.Valid wCli1 ∧ legalSeq wCli1 ["--flag1"] = true ∧
    chainSplit [wCli1] ["--flag1"] = ([wCli1], ["--flag1"]) ∧
    (∃ r, parse wCli1 ["--flag1"] = .ok r ∧
      (∀ t ∈ ["--flag1"], ∀ i f, resolveTok [wCli1] t = some (.flagR i f) →
        ∃ sc, r.scopeAt ([wCli1].length - 1 - i) = some sc ∧ sc.hasFlag f.name = true) ∧
      (∀ t ∈ ["--flag1"], ∀ i a raw, resolveTok [wCli1] t = some (.argR i a raw) →
        ∃ sc v, r.scopeAt ([wCli1].length - 1 - i) = some sc ∧
          a.checkValue raw = .ok v ∧ lookupKey sc.arguments a.name = some v) ∧
      (∀ i cmd_i, ([wCli1] : List Command).get? i = some cmd_i →
        ∀ k a d, (k, a) ∈ cmd_i.args → a.getDefaultValue = some d →
        lookupKey (argsAt [wCli1] ["--flag1"] i) a.name = none →
        ∃ sc, r.scopeAt ([wCli1].length - 1 - i) = some sc ∧
          lookupKey sc.arguments a.name = some d)) := by
  refine ⟨wCli1_valid, by decide, rfl, ?_⟩
  exact claim1_legal_sequences_parse wCli1 ["--flag1"] [wCli1] ["--flag1"]
    wCli1_valid (by decide) rfl

/-! ## Claim C2 -/

/-- C2: for a dashed token, name resolution searches the command stack
from the innermost scope outward and the first match wins — a
definition on the innermost command shadows a same-named ancestor one
(the found index admits no smaller declaring index), and a definition
on any ancestor level stays reachable (any index whose earlier levels
do not declare the name resolves there).  Double-dash tokens search
full names, single-dash tokens search short names, and when no level
of the stack matches the parse fails with an unknown-flag error for a
token without a raw value and an unknown-argument error for a token
with one. -/
theorem claim2_innermost_resolution (st : ParserState) (tok : String)
    (top : Entry) (rest : List Entry) (hstk : st.stack = top :: rest) :
    (isDoubleDashTok tok = true → (extractComponents tok).2 = "" →
      ((∀ e ∈ st.stack, lookupKey e.cmd.flags (extractComponents tok).1 = none) →
        consume st tok = .error ("unknown flag: `" ++ (extractComponents tok).1 ++ "`")) ∧
      (∀ i ei f, st.stack.get? i = some ei →
        lookupKey ei.cmd.flags (extractComponents tok).1 = some f →
        (∀ j, j < i → ∀ ej, st.stack.get? j = some ej →
          lookupKey ej.cmd.flags (extractComponents tok).1 = none) →
        consume st tok = setFlagAt { st with allowSubcommands := false } i f)) ∧
    (isDoubleDashTok tok = true → (extractComponents tok).2 ≠ "" →
      ((∀ e ∈ st.stack, lookupKey e.cmd.args (extractComponents tok).1 = none) →
        consume st tok = .error ("unknown argument: `" ++ (extractComponents tok).1 ++ "`")) ∧
      (∀ i ei a, st.stack.get? i = some ei →
        lookupKey ei.cmd.args (extractComponents tok).1 = some a →
        (∀ j, j < i → ∀ ej, st.stack.get? j = some ej →
          lookupKey ej.cmd.args (extractComponents tok).1 = none) →
        consume st tok = setArgAt { st with allowSubcommands := false } i a
          (extractComponents tok).2)) ∧
    (isDoubleDashTok tok = false → isDashTok tok = true → (extractComponents tok).2 = "" →
      ((∀ e ∈ st.stack, lookupKey e.cmd.flagsByShortName (extractComponents tok).1 = none) →
        consume st tok =
          .error ("unknown flag by short name: `" ++ (extractComponents tok).1 ++ "`")) ∧
      (∀ i ei f, st.stack.get? i = some ei →
        lookupKey ei.cmd.flagsByShortName (extractComponents tok).1 = some f →
        (∀ j, j < i → ∀ ej, st.stack.get? j = some ej →
          lookupKey ej.cmd.flagsByShortName (extractComponents tok).1 = none) →
        consume st tok = setFlagAt { st with allowSubcommands := false } i f)) ∧
    (isDoubleDashTok tok = false → isDashTok tok = true → (extractComponents tok).2 ≠ "" →
      ((∀ e ∈ st.stack, lookupKey e.cmd.argsByShortName (extractComponents tok).1 = none) →
        consume st tok =
          .error ("unknown argument by short name: `" ++ (extractComponents tok).1 ++ "`")) ∧
      (∀ i ei a, st.stack.get? i = some ei →
        lookupKey ei.cmd.argsByShortName (extractComponents tok).1 = some a →
        (∀ j, j < i → ∀ ej, st.stack.get? j = some ej →
          lookupKey ej.cmd.argsByShortName (extractComponents tok).1 = none) →
        consume st tok = setArgAt { st with allowSubcommands := false } i a
          (extractComponents tok).2)) := by
  refine ⟨?_, ?_, ?_, ?_⟩
  · intro hdd hemp
    constructor
    · intro hnone
      rw [consume_ddash st tok top rest hstk hdd, if_pos hemp,
        findFirst?_none_iff.mpr (fun e he => hnone e he)]
    · intro i ei f hget hfound hmin
      rw [consume_ddash st tok top rest hstk hdd, if_pos hemp,
        findFirst?_some_of hmin hget hfound]
  · intro hdd hemp
    constructor
    · intro hnone
      rw [consume_ddash st tok top rest hstk hdd, if_neg hemp,
        findFirst?_none_iff.mpr (fun e he => hnone e he)]
    · intro i ei a hget hfound hmin
      rw [consume_ddash st tok top rest hstk hdd, if_neg hemp,
        findFirst?_some_of hmin hget hfound]
  · intro hdd hsd hemp
    constructor
    · intro hnone
      rw [consume_sdash st tok top rest hstk hdd hsd, if_pos hemp,
        findFirst?_none_iff.mpr (fun e he => hnone e he)]
    · intro i ei f hget hfound hmin
      rw [consume_sdash st tok top rest hstk hdd hsd, if_pos hemp,
        findFirst?_some_of hmin hget hfound]
  · intro hdd hsd hemp
    constructor
    · intro hnone
      rw [consume_sdash st tok top rest hstk hdd hsd, if_neg hemp,
        findFirst?_none_iff.mpr (fun e he => hnone e he)]
    · intro i ei a hget hfound hmin
      rw [consume_sdash st tok top rest hstk hdd hsd, if_neg hemp,
        findFirst?_some_of hmin hget hfound]

/-- two-level witness stack for C2: the inner command and the outer
command both declare a flag with full name "x"; only the outer command
declares a flag "p". -/
def wFlagXInner : Flag := ⟨"x", "xi", "", false⟩

def wFlagXOuter : Flag := ⟨"x", "xo", "", false⟩

def wFlagPOuter : Flag := ⟨"p", "pp", "", false⟩

def wCmdInner : Command :=
  .mk "inner" "" true [("x", wFlagXInner)] [("xi", wFlagXInner)] [] [] none []

def wCmdOuter : Command :=
  .mk "outer" "" true [("x", wFlagXOuter), ("p", wFlagPOuter)]
    [("xo", wFlagXOuter), ("pp", wFlagPOuter)] [] [] none []

def wStack2 : ParserState :=
  { stack := [⟨wCmdInner, emptyFrame⟩, ⟨wCmdOuter, emptyFrame⟩],
    events := [], allowSubcommands := true }

/-- witness for C2: `--x` resolves to the inner flag (shadowing the
ancestor's `x`), `--p` stays reachable on the ancestor level, and an
undeclared `--zz` fails with an unknown-flag error. -/
theorem claim2_witness :
    consume wStack2 "--x" = setFlagAt { wStack2 with allowSubcommands := false } 0 wFlagXInner ∧
    consume wStack2 "--p" = setFlagAt { wStack2 with allowSubcommands := false } 1 wFlagPOuter ∧
    consume wStack2 "--zz" = .error "unknown flag: `zz`" := by
  refine ⟨?_, ?_, ?_⟩
  · exact ((claim2_innermost_resolution wStack2 "--x" ⟨wCmdInner, emptyFrame⟩
      [⟨wCmdOuter, emptyFrame⟩] rfl).1 rfl rfl).2 0 ⟨wCmdInner, emptyFrame⟩ wFlagXInner
      rfl rfl (fun j hj => absurd hj (Nat.not_lt_zero j))
  · refine ((claim2_innermost_resolution wStack2 "--p" ⟨wCmdInner, emptyFrame⟩
      [⟨wCmdOuter, emptyFrame⟩] rfl).1 rfl rfl).2 1 ⟨wCmdOuter, emptyFrame⟩ wFlagPOuter
      rfl rfl ?_
    intro j hj ej hej
    obtain rfl : j = 0 := by omega
    obtain rfl := Option.some.inj hej
    rfl
  · refine ((claim2_innermost_resolution wStack2 "--zz" ⟨wCmdInner, emptyFrame⟩
      [⟨wCmdOuter, emptyFrame⟩] rfl).1 rfl rfl).1 ?_
    intro e he
    simp only [wStack2, List.mem_cons, List.mem_singleton] at he
    rcases he with rfl | rfl | he'
    · rfl
    · rfl
    · simp at he'

/-! ## Claim C3 -/

theorem splitFirstEq_of_split {pre post : List Char} (hpre : '=' ∉ pre) :
    splitFirstEq (pre ++ '=' :: post) = some (pre, post) := by
  induction pre with
  | nil => simp [splitFirstEq]
  | cons c cs ih =>
    have hc : c ≠ '=' := fun hc => hpre (hc ▸ List.mem_cons_self _ _)
    have hcs : '=' ∉ cs := fun hm => hpre (List.mem_cons_of_mem _ hm)
    rw [List.cons_append, splitFirstEq, if_neg (fun h => hc h), ih hcs]

theorem splitFirstEq_of_no_eq {l : List Char} (h : '=' ∉ l) :
    splitFirstEq l = none := by
  induction l with
  | nil => rfl
  | cons c cs ih =>
    have hc : c ≠ '=' := fun hc => h (hc ▸ List.mem_cons_self _ _)
    have hcs : '=' ∉ cs := fun hm => h (List.mem_cons_of_mem _ hm)
    rw [splitFirstEq, if_neg (fun hh => hc hh), ih hcs]

/-- the counterexample tree for C3: a command declaring a named
argument `x` and no flag named `x`. -/
def wArgX : Argument := .strArg ⟨"x", "xs", "", false, none⟩ none

def wCli3 : Command :=
  .mk "olive" "" true [] [] [("x", wArgX)] [("xs", wArgX)] none []

/-- counterexample to C3 as stated: the token `--x=` contains an `=`
with empty text after it, so by the claim it should resolve as the
named argument `x`; the code computes an empty raw value, takes the
flag branch, and fails with an unknown-flag error instead. -/
theorem claim3_counterexample :
    parse wCli3 ["--x="] = .error "unknown flag: `x`" := by rfl

/-- C3 amended: a double-dash token splits at its first `=` into name
and raw value, the raw value preserving any further `=` characters
verbatim; the token resolves as a named argument exactly when the text
after the first `=` is nonempty, and a token with no `=` — or with
empty text after the first `=`, whose extracted raw value is the empty
string — resolves as a flag. -/
theorem claim3_amended_split (tok : String) :
    (∀ pre post, tok.data = pre ++ '=' :: post → '=' ∉ pre →
      extractComponents tok = (⟨pre.dropWhile (· = '-')⟩, ⟨post⟩) ∧
      ((extractComponents tok).2 = "" ↔ post = [])) ∧
    ('=' ∉ tok.data → extractComponents tok = (⟨tok.data.dropWhile (· = '-')⟩, "")) ∧
    (∀ (st : ParserState) (top : Entry) (rest : List Entry), st.stack = top :: rest →
      isDoubleDashTok tok = true →
      ((extractComponents tok).2 ≠ "" →
        consume st tok =
          (match findFirst? (fun e => lookupKey e.cmd.args (extractComponents tok).1) st.stack with
           | some (i, a) =>
             setArgAt { st with allowSubcommands := false } i a (extractComponents tok).2
           | none => .error ("unknown argument: `" ++ (extractComponents tok).1 ++ "`"))) ∧
      ((extractComponents tok).2 = "" →
        consume st tok =
          (match findFirst? (fun e => lookupKey e.cmd.flags (extractComponents tok).1) st.stack with
           | some (i, f) => setFlagAt { st with allowSubcommands := false } i f
           | none => .error ("unknown flag: `" ++ (extractComponents tok).1 ++ "`")))) := by
  refine ⟨?_, ?_, ?_⟩
  · intro pre post hdata hpre
    have hext : extractComponents tok = (⟨pre.dropWhile (· = '-')⟩, ⟨post⟩) := by
      rw [extractComponents, hdata, splitFirstEq_of_split hpre]
    refine ⟨hext, ?_⟩
    rw [hext]
    constructor
    · intro h
      have : (⟨post⟩ : String).data = "".data := congrArg String.data h
      simpa using this
    · intro h
      rw [h]
  · intro hno
    rw [extractComponents, splitFirstEq_of_no_eq hno]
  · intro st top rest hstk hdd
    constructor
    · intro hemp
      rw [consume_ddash st tok top rest hstk hdd, if_neg hemp]
    · intro hemp
      rw [consume_ddash st tok top rest hstk hdd, if_pos hemp]

/-- witness for the amended C3: `--x=v` splits into name `x` and raw
value `v` and is consumed as the named argument `x`; the counterexample
theorem above exercises the empty-raw-value flag branch. -/
theorem claim3_amended_witness :
    extractComponents "--x=v" = ("x", "v") ∧
    consume (initState wCli3) "--x=v" =
      setArgAt { initState wCli3 with allowSubcommands := false } 0 wArgX "v" := by
  have h := claim3_amended_split "--x=v"
  constructor
  · exact (h.1 ['-', '-', 'x'] ['v'] rfl (by decide)).1
  · have h3 := (h.2.2 (initState wCli3) ⟨wCli3, emptyFrame⟩ [] rfl rfl).1 (by decide)
    exact h3.trans rfl

/-! ## Shape lemmas for successful consume steps -/

theorem setFlagInStack_ok_cmds {f : Flag} {i : Nat} {l l' : List Entry}
    (h : setFlagInStack f i l = .ok l') : l'.map Entry.cmd = l.map Entry.cmd := by
  induction l generalizing i l' with
  | nil => simp [setFlagInStack] at h
  | cons e rest ih =>
    cases i with
    | zero =>
      rw [setFlagInStack] at h
      by_cases hmem : f.name ∈ e.frame.flags
      · rw [if_pos hmem] at h
        exact Except.noConfusion h
      · rw [if_neg hmem] at h
        obtain rfl := Except.ok.inj h
        simp
    | succ i' =>
      rw [setFlagInStack] at h
      cases hr : setFlagInStack f i' rest with
      | error msg => rw [hr] at h; exact Except.noConfusion h
      | ok rest' =>
        rw [hr] at h
        obtain rfl := Except.ok.inj h
        simp [ih hr]

theorem setArgInStack_ok_cmds {a : Argument} {value : String} {i : Nat} {l l' : List Entry}
    (h : setArgInStack a value i l = .ok l') : l'.map Entry.cmd = l.map Entry.cmd := by
  induction l generalizing i l' with
  | nil => simp [setArgInStack] at h
  | cons e rest ih =>
    cases i with
    | zero =>
      rw [setArgInStack] at h
      by_cases hmem : (lookupKey e.frame.arguments a.name).isSome
      · rw [if_pos hmem] at h
        exact Except.noConfusion h
      · rw [if_neg hmem] at h
        cases hchk : a.checkValue value with
        | error msg => rw [hchk] at h; exact Except.noConfusion h
        | ok v =>
          rw [hchk] at h
          obtain rfl := Except.ok.inj h
          simp
    | succ i' =>
      rw [setArgInStack] at h
      cases hr : setArgInStack a value i' rest with
      | error msg => rw [hr] at h; exact Except.noConfusion h
      | ok rest' =>
        rw [hr] at h
        obtain rfl := Except.ok.inj h
        simp [ih hr]

theorem setFlagInStack_ok_head {f : Flag} {i : Nat} {l l' : List Entry}
    (h : setFlagInStack f i l = .ok l') {e' : Entry} (hd : l'.get? 0 = some e') :
    ∃ e, l.get? 0 = some e ∧ e'.cmd = e.cmd ∧
      e'.frame.subcommandName = e.frame.subcommandName ∧
      e'.frame.primaryArg = e.frame.primaryArg := by
  cases l with
  | nil => simp [setFlagInStack] at h
  | cons e rest =>
    cases i with
    | zero =>
      rw [setFlagInStack] at h
      by_cases hmem : f.name ∈ e.frame.flags
      · rw [if_pos hmem] at h
        exact Except.noConfusion h
      · rw [if_neg hmem] at h
        obtain rfl := Except.ok.inj h
        obtain rfl := Option.some.inj hd
        exact ⟨e, rfl, rfl, rfl, rfl⟩
    | succ i' =>
      rw [setFlagInStack] at h
      cases hr : setFlagInStack f i' rest with
      | error msg => rw [hr] at h; exact Except.noConfusion h
      | ok rest' =>
        rw [hr] at h
        obtain rfl := Except.ok.inj h
        obtain rfl := Option.some.inj hd
        exact ⟨e, rfl, rfl, rfl, rfl⟩

theorem setArgInStack_ok_head {a : Argument} {value : String} {i : Nat} {l l' : List Entry}
    (h : setArgInStack a value i l = .ok l') {e' : Entry} (hd : l'.get? 0 = some e') :
    ∃ e, l.get? 0 = some e ∧ e'.cmd = e.cmd ∧
      e'.frame.subcommandName = e.frame.subcommandName ∧
      e'.frame.primaryArg = e.frame.primaryArg := by
  cases l with
  | nil => simp [setArgInStack] at h
  | cons e rest =>
    cases i with
    | zero =>
      rw [setArgInStack] at h
      by_cases hmem : (lookupKey e.frame.arguments a.name).isSome
      · rw [if_pos hmem] at h
        exact Except.noConfusion h
      · rw [if_neg hmem] at h
        cases hchk : a.checkValue value with
        | error msg => rw [hchk] at h; exact Except.noConfusion h
        | ok v =>
          rw [hchk] at h
          obtain rfl := Except.ok.inj h
          obtain rfl := Option.some.inj hd
          exact ⟨e, rfl, rfl, rfl, rfl⟩
    | succ i' =>
      rw [setArgInStack] at h
      cases hr : setArgInStack a value i' rest with
      | error msg => rw [hr] at h; exact Except.noConfusion h
      | ok rest' =>
        rw [hr] at h
        obtain rfl := Except.ok.inj h
        obtain rfl := Option.some.inj hd
        exact ⟨e, rfl, rfl, rfl, rfl⟩

theorem setFlagAt_ok_shape {s : ParserState} {i : Nat} {f : Flag} {s' : ParserState}
    (h : setFlagAt s i f = .ok s') :
    s'.allowSubcommands = s.allowSubcommands ∧
    s'.stack.map Entry.cmd = s.stack.map Entry.cmd ∧
    s'.events = s.events ++ (if f.hasAction then [f.name] else []) ∧
    ∃ stk, setFlagInStack f i s.stack = .ok stk ∧ s'.stack = stk := by
  rw [setFlagAt] at h
  cases hr : setFlagInStack f i s.stack with
  | error msg => rw [hr] at h; exact Except.noConfusion h
  | ok stk =>
    rw [hr] at h
    obtain rfl := Except.ok.inj h
    exact ⟨rfl, setFlagInStack_ok_cmds hr, rfl, stk, rfl, rfl⟩

theorem setArgAt_ok_shape {s : ParserState} {i : Nat} {a : Argument} {value : String}
    {s' : ParserState} (h : setArgAt s i a value = .ok s') :
    s'.allowSubcommands = s.allowSubcommands ∧
    s'.stack.map Entry.cmd = s.stack.map Entry.cmd ∧
    s'.events = s.events ∧
    ∃ stk, setArgInStack a value i s.stack = .ok stk ∧ s'.stack = stk := by
  rw [setArgAt] at h
  cases hr : setArgInStack a value i s.stack with
  | error msg => rw [hr] at h; exact Except.noConfusion h
  | ok stk =>
    rw [hr] at h
    obtain rfl := Except.ok.inj h
    exact ⟨rfl, setArgInStack_ok_cmds hr, rfl, stk, rfl, rfl⟩

theorem consume_ok_stack_ne {st : ParserState} {tok : String} {st' : ParserState}
    (h : consume st tok = .ok st') : st.stack ≠ [] := by
  intro hnil
  obtain ⟨stk, events, allow⟩ := st
  simp only at hnil
  subst hnil
  rw [consume] at h
  exact Except.noConfusion h

/-- a dashed token consumed through either search branch: whatever the
outcome shape, the latch of the post state is cleared and the stack's
commands are unchanged. -/
theorem consume_dash_ok_shape {st : ParserState} {tok : String} {st' : ParserState}
    (h : consume st tok = .ok st') (hsd : isDashTok tok = true) :
    st'.allowSubcommands = false ∧
    st'.stack.map Entry.cmd = st.stack.map Entry.cmd := by
  obtain ⟨top, rest, hstk⟩ : ∃ top rest, st.stack = top :: rest := by
    cases hs : st.stack with
    | nil => exact absurd hs (consume_ok_stack_ne h)
    | cons a b => exact ⟨a, b, rfl⟩
  by_cases hdd : isDoubleDashTok tok
  · rw [consume_ddash st tok top rest hstk hdd] at h
    by_cases hemp : (extractComponents tok).2 = ""
    · rw [if_pos hemp] at h
      cases hff : findFirst? (fun e => lookupKey e.cmd.flags (extractComponents tok).1)
          st.stack with
      | none => rw [hff] at h; exact Except.noConfusion h
      | some q =>
        obtain ⟨i, f⟩ := q
        rw [hff] at h
        obtain ⟨ha, hc, _, _⟩ := setFlagAt_ok_shape h
        exact ⟨ha, hc⟩
    · rw [if_neg hemp] at h
      cases hff : findFirst? (fun e => lookupKey e.cmd.args (extractComponents tok).1)
          st.stack with
      | none => rw [hff] at h; exact Except.noConfusion h
      | some q =>
        obtain ⟨i, a⟩ := q
        rw [hff] at h
        obtain ⟨ha, hc, _, _⟩ := setArgAt_ok_shape h
        exact ⟨ha, hc⟩
  · rw [consume_sdash st tok top rest hstk (by simpa using hdd) hsd] at h
    by_cases hemp : (extractComponents tok).2 = ""
    · rw [if_pos hemp] at h
      cases hff : findFirst? (fun e => lookupKey e.cmd.flagsByShortName (extractComponents tok).1)
          st.stack with
      | none => rw [hff] at h; exact Except.noConfusion h
      | some q =>
        obtain ⟨i, f⟩ := q
        rw [hff] at h
        obtain ⟨ha, hc, _, _⟩ := setFlagAt_ok_shape h
        exact ⟨ha, hc⟩
    · rw [if_neg hemp] at h
      cases hff : findFirst? (fun e => lookupKey e.cmd.argsByShortName (extractComponents tok).1)
          st.stack with
      | none => rw [hff] at h; exact Except.noConfusion h
      | some q =>
        obtain ⟨i, a⟩ := q
        rw [hff] at h
        obtain ⟨ha, hc, _, _⟩ := setArgAt_ok_shape h
        exact ⟨ha, hc⟩

/-- with the subcommand latch cleared, a successful consume step keeps
it cleared and never changes the command stack. -/
theorem consume_latch_false_inv {st : ParserState} {tok : String} {st' : ParserState}
    (h : consume st tok = .ok st') (hallow : st.allowSubcommands = false) :
    st'.allowSubcommands = false ∧
    st'.stack.map Entry.cmd = st.stack.map Entry.cmd := by
  obtain ⟨top, rest, hstk⟩ : ∃ top rest, st.stack = top :: rest := by
    cases hs : st.stack with
    | nil => exact absurd hs (consume_ok_stack_ne h)
    | cons a b => exact ⟨a, b, rfl⟩
  by_cases hsd : isDashTok tok
  · exact consume_dash_ok_shape h hsd
  · rw [consume_bare st tok top rest hstk (by simpa using hsd)] at h
    by_cases hprim : (top.cmd.primaryArg).isSome
    · rw [if_pos hprim] at h
      by_cases hset : top.frame.primaryArg ≠ ""
      · rw [if_pos hset] at h
        exact Except.noConfusion h
      · rw [if_neg hset] at h
        obtain rfl := Except.ok.inj h
        refine ⟨rfl, ?_⟩
        rw [hstk]
        simp
    · rw [if_neg hprim] at h
      rw [if_neg (by simp [hallow])] at h
      exact Except.noConfusion h

theorem consumeAll_latch_false_inv {toks : List String} {st st' : ParserState}
    (h : consumeAll st toks = .ok st') (hallow : st.allowSubcommands = false) :
    st'.allowSubcommands = false ∧
    st'.stack.map Entry.cmd = st.stack.map Entry.cmd := by
  induction toks generalizing st with
  | nil =>
    obtain rfl := Except.ok.inj h
    exact ⟨hallow, rfl⟩
  | cons t rest ih =>
    rw [consumeAll] at h
    cases hc : consume st t with
    | error msg => rw [hc] at h; exact Except.noConfusion h
    | ok st₁ =>
      rw [hc] at h
      obtain ⟨ha₁, hm₁⟩ := consume_latch_false_inv hc hallow
      obtain ⟨ha₂, hm₂⟩ := ih h ha₁
      exact ⟨ha₂, hm₂.trans hm₁⟩

/-! ## Claim C4 -/

/-- C4: consuming any flag or named-argument token (a dashed token) or
a primary-argument token clears the subcommand latch; once the latch is
cleared a successful step keeps it cleared and never changes the
command stack — so no later token is ever resolved as a subcommand and
subcommands can only form a contiguous prefix — and a bare word
arriving with the latch cleared in a scope with no primary argument
fails the parse with an unknown-subcommand error. -/
theorem claim4_subcommand_latch :
    (∀ (st : ParserState) (tok : String) (st' : ParserState),
      consume st tok = .ok st' → isDashTok tok = true →
      st'.allowSubcommands = false) ∧
    (∀ (st : ParserState) (tok : String) (st' : ParserState) (top : Entry) (rest : List Entry),
      st.stack = top :: rest → consume st tok = .ok st' → isDashTok tok = false →
      (top.cmd.primaryArg).isSome → st'.allowSubcommands = false) ∧
    (∀ (st : ParserState) (tok : String) (st' : ParserState),
      st.allowSubcommands = false → consume st tok = .ok st' →
      st'.allowSubcommands = false ∧ st'.stack.map Entry.cmd = st.stack.map Entry.cmd) ∧
    (∀ (st : ParserState) (toks : List String) (st' : ParserState),
      st.allowSubcommands = false → consumeAll st toks = .ok st' →
      st'.stack.map Entry.cmd = st.stack.map Entry.cmd) ∧
    (∀ (st : ParserState) (tok : String) (top : Entry) (rest : List Entry),
      st.stack = top :: rest → st.allowSubcommands = false → isDashTok tok = false →
      top.cmd.primaryArg = none →
      consume st tok = .error ("unknown subcommand: `" ++ tok ++ "`")) := by
  refine ⟨?_, ?_, ?_, ?_, ?_⟩
  · intro st tok st' h hsd
    exact (consume_dash_ok_shape h hsd).1
  · intro st tok st' top rest hstk h hsd hprim
    rw [consume_bare st tok top rest hstk hsd, if_pos hprim] at h
    by_cases hset : top.frame.primaryArg ≠ ""
    · rw [if_pos hset] at h
      exact Except.noConfusion h
    · rw [if_neg hset] at h
      obtain rfl := Except.ok.inj h
      rfl
  · intro st tok st' hallow h
    exact consume_latch_false_inv h hallow
  · intro st toks st' hallow h
    exact (consumeAll_latch_false_inv h hallow).2
  · intro st tok top rest hstk hallow hsd hprim
    rw [consume_bare st tok top rest hstk hsd, hprim]
    rw [if_neg (by simp)]
    rw [if_neg (by simp [hallow])]

/-- witness for C4: with the latch cleared and no primary argument in
scope, a bare word fails with an unknown-subcommand error. -/
theorem claim4_witness :
    consume { wStack2 with allowSubcommands := false } "bare" =
      .error "unknown subcommand: `bare`" :=
  claim4_subcommand_latch.2.2.2.2 { wStack2 with allowSubcommands := false } "bare"
    ⟨wCmdInner, emptyFrame⟩ [⟨wCmdOuter, emptyFrame⟩] rfl rfl rfl rfl

/-! ## Claim C5 -/

/-- C5: in a scope whose active command declares a primary argument, a
bare token is recorded verbatim and unvalidated as the scope's
primary-argument value when the recorded string is still empty; a bare
token arriving once a (nonempty) value is recorded fails with a
multiple-primary-arguments error; and the PrimaryArg accessor reports
the primary argument absent exactly when the recorded string is
empty. -/
theorem claim5_primary_argument (st : ParserState) (tok : String)
    (top : Entry) (rest : List Entry) (hstk : st.stack = top :: rest)
    (hsd : isDashTok tok = false) (hprim : (top.cmd.primaryArg).isSome) :
    (top.frame.primaryArg = "" →
      consume st tok = .ok { st with
        stack := { top with frame := { top.frame with primaryArg := tok } } :: rest,
        allowSubcommands := false }) ∧
    (top.frame.primaryArg ≠ "" →
      consume st tok = .error
        ("multiple primary arguments specified for command `" ++ top.cmd.name ++ "`")) ∧
    (∀ r : ArgParseResult, (r.primaryArgAcc).2 = false ↔ r.primaryArg = "") := by
  refine ⟨?_, ?_, ?_⟩
  · intro hempty
    rw [consume_bare st tok top rest hstk hsd, if_pos hprim, if_neg (by simp [hempty])]
  · intro hset
    rw [consume_bare st tok top rest hstk hsd, if_pos hprim, if_pos hset]
  · intro r
    simp [ArgParseResult.primaryArgAcc]

/-- witness state for C5: a command with a primary argument. -/
def wPrim : PrimaryArgument := ⟨"package-name", "", false⟩

def wCli5 : Command := .mk "build" "" true [] [] [] [] (some wPrim) []

def wSt5 : ParserState :=
  { stack := [⟨wCli5, emptyFrame⟩], events := [], allowSubcommands := true }

/-- witness for C5: a first bare token is recorded verbatim; a second
bare token fails with the multiple-primary-arguments error. -/
theorem claim5_witness :
    consume wSt5 "pkg" = .ok ⟨[⟨wCli5, ⟨[], [], "", "pkg"⟩⟩], [], false⟩ ∧
    consume ⟨[⟨wCli5, ⟨[], [], "", "pkg"⟩⟩], [], false⟩ "again" =
      .error "multiple primary arguments specified for command `build`" := by
  constructor
  · exact ((claim5_primary_argument wSt5 "pkg" ⟨wCli5, emptyFrame⟩ [] rfl rfl rfl).1 rfl).trans rfl
  · exact ((claim5_primary_argument _ "again" ⟨wCli5, ⟨[], [], "", "pkg"⟩⟩ [] rfl rfl
      rfl).2.1 (by decide)).trans rfl

/-! ## Claim C6 -/

/-- C6: re-setting a flag already marked present in its resolved
scope's result fails with a flag-set-multiple-times error, and the same
rule keyed on the underlying flag's full name makes a long-form and a
short-form occurrence of one flag collide; named arguments fail
analogously with an argument-set-multiple-times error; and on a first,
successful setting of a flag the side-effect callback, when installed,
is invoked exactly once, synchronously within that consume step —
before the next token is consumed — which the event log records. -/
theorem claim6_duplicate_and_action :
    (∀ (st : ParserState) (i : Nat) (f : Flag) (e : Entry),
      st.stack.get? i = some e → f.name ∈ e.frame.flags →
      setFlagAt st i f = .error ("flag `" ++ f.name ++ "` set multiple times")) ∧
    (∀ (st : ParserState) (i : Nat) (a : Argument) (v : String) (e : Entry),
      st.stack.get? i = some e → (lookupKey e.frame.arguments a.name).isSome →
      setArgAt st i a v = .error ("argument `" ++ a.name ++ "` set multiple times")) ∧
    (∀ (st : ParserState) (i : Nat) (f : Flag) (e : Entry),
      st.stack.get? i = some e → f.name ∉ e.frame.flags →
      ∃ st', setFlagAt st i f = .ok st' ∧
        st'.events = st.events ++ (if f.hasAction then [f.name] else [])) ∧
    (∀ (st : ParserState) (t₁ t₂ : String) (i : Nat) (f₁ f₂ : Flag) (st' : ParserState),
      resolveTok (st.stack.map Entry.cmd) t₁ = some (.flagR i f₁) →
      resolveTok (st.stack.map Entry.cmd) t₂ = some (.flagR i f₂) →
      f₁.name = f₂.name →
      consume st t₁ = .ok st' →
      consume st' t₂ = .error ("flag `" ++ f₂.name ++ "` set multiple times")) := by
  refine ⟨?_, ?_, ?_, ?_⟩
  · intro st i f e hget hmem
    rw [setFlagAt, setFlagInStack_already hget hmem]
  · intro st i a v e hget hmem
    rw [setArgAt, setArgInStack_already hget hmem]
  · intro st i f e hget hmem
    obtain ⟨stk, hok, _, _, _, _⟩ := setFlagInStack_ok_spec hget hmem
    exact ⟨_, by rw [setFlagAt, hok], rfl⟩
  · intro st t₁ t₂ i f₁ f₂ st' hres₁ hres₂ hname h
    obtain ⟨e, hget, hcons⟩ := consume_resolved_flag (consume_ok_stack_ne h) hres₁
    rw [hcons] at h
    obtain ⟨_, hcmds, _, stk, hok, hstk'⟩ := setFlagAt_ok_shape h
    have hnot : f₁.name ∉ e.frame.flags := by
      intro hmem
      rw [setFlagInStack_already hget hmem] at hok
      exact Except.noConfusion hok
    obtain ⟨stk₂, hok₂, _, _, hgeti, _⟩ := setFlagInStack_ok_spec hget hnot
    obtain rfl : stk = stk₂ := Except.ok.inj (hok.symm.trans hok₂)
    have hres₂' : resolveTok (st'.stack.map Entry.cmd) t₂ = some (.flagR i f₂) := by
      rw [hcmds]
      exact hres₂
    have hne' : st'.stack ≠ [] := by
      intro hnil
      rw [hnil] at hres₂'
      rw [List.map_nil, resolveTok_nil] at hres₂'
      exact Option.noConfusion hres₂'
    obtain ⟨e₂, hget₂, hcons₂⟩ := consume_resolved_flag hne' hres₂'
    have he₂ : e₂ = { e with frame :=
        { e.frame with flags := e.frame.flags ++ [f₁.name] } } := by
      apply Option.some.inj
      rw [← hget₂, hstk']
      exact hgeti
    have hmem₂ : f₂.name ∈ e₂.frame.flags := by
      rw [he₂, ← hname]
      simp
    rw [hcons₂, setFlagAt]
    have hproj : ({ st' with allowSubcommands := false } : ParserState).stack = st'.stack := rfl
    rw [hproj, setFlagInStack_already hget₂ hmem₂]

/-- witness for C6: the short form `-f1` and the long form `--flag1`
resolve to the same underlying flag, so setting both fails with the
flag-set-multiple-times error. -/
theorem claim6_witness :
    consume ⟨[⟨wCli1, ⟨["flag1"], [], "", ""⟩⟩], [], false⟩ "--flag1" =
      .error "flag `flag1` set multiple times" :=
  claim6_duplicate_and_action.2.2.2 (initState wCli1) "-f1" "--flag1" 0 wFlag1 wFlag1
    ⟨[⟨wCli1, ⟨["flag1"], [], "", ""⟩⟩], [], false⟩ rfl rfl rfl rfl

/-! ## Claim C7 -/

/-- the parser never records a chosen subcommand on the innermost
frame: whenever a child is chosen, the recording frame stops being the
innermost one. -/
theorem consume_top_subName {st : ParserState} {tok : String} {st' : ParserState}
    (h : consume st tok = .ok st') {e₀ : Entry} (hget : st.stack.get? 0 = some e₀)
    (hname : e₀.frame.subcommandName = "") :
    ∃ e₀', st'.stack.get? 0 = some e₀' ∧ e₀'.frame.subcommandName = "" := by
  obtain ⟨top, rest, hstk⟩ : ∃ top rest, st.stack = top :: rest := by
    cases hs : st.stack with
    | nil => exact absurd hs (consume_ok_stack_ne h)
    | cons a b => exact ⟨a, b, rfl⟩
  have hetop : top = e₀ := by
    rw [hstk] at hget
    exact Option.some.inj hget
  subst hetop
  by_cases hdd : isDoubleDashTok tok
  · rw [consume_ddash st tok top rest hstk hdd] at h
    by_cases hemp : (extractComponents tok).2 = ""
    · rw [if_pos hemp] at h
      cases hff : findFirst? (fun e => lookupKey e.cmd.flags (extractComponents tok).1)
          st.stack with
      | none => rw [hff] at h; exact Except.noConfusion h
      | some q =>
        obtain ⟨i, f⟩ := q
        rw [hff] at h
        obtain ⟨_, hc, _, stk, hok, hstk'⟩ := setFlagAt_ok_shape h
        have hne' : stk ≠ [] := by
          intro hnil
          rw [hstk', hnil] at hc
          rw [hstk] at hc
          simp at hc
        obtain ⟨e', hget'⟩ := @exists_get?_of_lt Entry stk 0
          (by cases stk with | nil => exact absurd rfl hne' | cons a b => simp)
        obtain ⟨e, hgete, _, hsn, _⟩ := setFlagInStack_ok_head hok hget'
        rw [hstk] at hgete
        obtain rfl := Option.some.inj hgete
        exact ⟨e', by rw [hstk']; exact hget', by rw [hsn]; exact hname⟩
    · rw [if_neg hemp] at h
      cases hff : findFirst? (fun e => lookupKey e.cmd.args (extractComponents tok).1)
          st.stack with
      | none => rw [hff] at h; exact Except.noConfusion h
      | some q =>
        obtain ⟨i, a⟩ := q
        rw [hff] at h
        obtain ⟨_, hc, _, stk, hok, hstk'⟩ := setArgAt_ok_shape h
        have hne' : stk ≠ [] := by
          intro hnil
          rw [hstk', hnil] at hc
          rw [hstk] at hc
          simp at hc
        obtain ⟨e', hget'⟩ := @exists_get?_of_lt Entry stk 0
          (by cases stk with | nil => exact absurd rfl hne' | cons a b => simp)
        obtain ⟨e, hgete, _, hsn, _⟩ := setArgInStack_ok_head hok hget'
        rw [hstk] at hgete
        obtain rfl := Option.some.inj hgete
        exact ⟨e', by rw [hstk']; exact hget', by rw [hsn]; exact hname⟩
  · by_cases hsd : isDashTok tok
    · rw [consume_sdash st tok top rest hstk (by simpa using hdd) hsd] at h
      by_cases hemp : (extractComponents tok).2 = ""
      · rw [if_pos hemp] at h
        cases hff : findFirst? (fun e => lookupKey e.cmd.flagsByShortName (extractComponents tok).1)
            st.stack with
        | none => rw [hff] at h; exact Except.noConfusion h
        | some q =>
          obtain ⟨i, f⟩ := q
          rw [hff] at h
          obtain ⟨_, hc, _, stk, hok, hstk'⟩ := setFlagAt_ok_shape h
          have hne' : stk ≠ [] := by
            intro hnil
            rw [hstk', hnil] at hc
            rw [hstk] at hc
            simp at hc
          obtain ⟨e', hget'⟩ := @exists_get?_of_lt Entry stk 0
            (by cases stk with | nil => exact absurd rfl hne' | cons a b => simp)
          obtain ⟨e, hgete, _, hsn, _⟩ := setFlagInStack_ok_head hok hget'
          rw [hstk] at hgete
          obtain rfl := Option.some.inj hgete
          exact ⟨e', by rw [hstk']; exact hget', by rw [hsn]; exact hname⟩
      · rw [if_neg hemp] at h
        cases hff : findFirst? (fun e => lookupKey e.cmd.argsByShortName (extractComponents tok).1)
            st.stack with
        | none => rw [hff] at h; exact Except.noConfusion h
        | some q =>
          obtain ⟨i, a⟩ := q
          rw [hff] at h
          obtain ⟨_, hc, _, stk, hok, hstk'⟩ := setArgAt_ok_shape h
          have hne' : stk ≠ [] := by
            intro hnil
            rw [hstk', hnil] at hc
            rw [hstk] at hc
            simp at hc
          obtain ⟨e', hget'⟩ := @exists_get?_of_lt Entry stk 0
            (by cases stk with | nil => exact absurd rfl hne' | cons a b => simp)
          obtain ⟨e, hgete, _, hsn, _⟩ := setArgInStack_ok_head hok hget'
          rw [hstk] at hgete
          obtain rfl := Option.some.inj hgete
          exact ⟨e', by rw [hstk']; exact hget', by rw [hsn]; exact hname⟩
    · rw [consume_bare st tok top rest hstk (by simpa using hsd)] at h
      by_cases hprim : (top.cmd.primaryArg).isSome
      · rw [if_pos hprim] at h
        by_cases hset : top.frame.primaryArg ≠ ""
        · rw [if_pos hset] at h
          exact Except.noConfusion h
        · rw [if_neg hset] at h
          obtain rfl := Except.ok.inj h
          exact ⟨_, rfl, hname⟩
      · rw [if_neg hprim] at h
        by_cases hallow : st.allowSubcommands = true
        · rw [if_pos hallow] at h
          cases hlu : lookupKey top.cmd.subcommands tok with
          | none => rw [hlu] at h; exact Except.noConfusion h
          | some subc =>
            rw [hlu] at h
            obtain rfl := Except.ok.inj h
            exact ⟨⟨subc, emptyFrame⟩, rfl, rfl⟩
        · rw [if_neg hallow] at h
          exact Except.noConfusion h

theorem consumeAll_top_subName {toks : List String} {st st' : ParserState}
    (h : consumeAll st toks = .ok st') {e₀ : Entry} (hget : st.stack.get? 0 = some e₀)
    (hname : e₀.frame.subcommandName = "") :
    ∃ e₀', st'.stack.get? 0 = some e₀' ∧ e₀'.frame.subcommandName = "" := by
  induction toks generalizing st e₀ with
  | nil =>
    obtain rfl := Except.ok.inj h
    exact ⟨e₀, hget, hname⟩
  | cons t rest ih =>
    rw [consumeAll] at h
    cases hc : consume st t with
    | error msg => rw [hc] at h; exact Except.noConfusion h
    | ok st₁ =>
      rw [hc] at h
      obtain ⟨e₁, hget₁, hname₁⟩ := consume_top_subName hc hget hname
      exact ih h hget₁ hname₁

/-- C7: after all tokens are consumed, the parse fails with a
requires-a-subcommand error exactly when the innermost command of the
final stack declares at least one subcommand and marks subcommands
required; the check concerns only that deepest frame — the innermost
frame provably never has a chosen subcommand recorded, and when the
deepest frame's condition does not hold the parse succeeds regardless
of any ancestor's subcommand requirement. -/
theorem claim7_requires_subcommand (c : Command) (toks : List String) (st : ParserState)
    (top : Entry) (rest : List Entry)
    (hca : consumeAll (initState c) toks = .ok st) (hstk : st.stack = top :: rest) :
    top.frame.subcommandName = "" ∧
    ((0 < top.cmd.subcommands.length ∧ top.cmd.requiresSubcommand = true) →
      parse c toks = .error ("`" ++ top.cmd.name ++ "` requires a subcommand")) ∧
    (¬(0 < top.cmd.subcommands.length ∧ top.cmd.requiresSubcommand = true) →
      ∃ r, parse c toks = .ok r) := by
  refine ⟨?_, ?_, ?_⟩
  · obtain ⟨e₀', hget', hname'⟩ :=
      @consumeAll_top_subName toks (initState c) st hca ⟨c, emptyFrame⟩ rfl rfl
    rw [hstk] at hget'
    obtain rfl := Option.some.inj hget'
    exact hname'
  · intro hcond
    rw [parse.eq_def, hca]
    simp only [hstk]
    rw [if_pos hcond]
  · intro hcond
    rw [parse.eq_def, hca]
    simp only [hstk]
    rw [if_neg hcond]
    have hne : ((top :: rest).map fillDefaultsEntry).reverse ≠ [] := by simp
    obtain ⟨r, hr⟩ := assembleRootFirst_isSome hne
    rw [hr]
    exact ⟨r, rfl⟩

/-- witness command for C7: a root that requires a subcommand and
declares one. -/
def wSub7 : Command := .mk "sub" "" false [] [] [] [] none []

def wCli7 : Command := .mk "olive" "" true [] [] [] [] none [("sub", wSub7)]

/-- witness for C7: with no tokens, the root requiring a subcommand
fails with the requires-a-subcommand error. -/
theorem claim7_witness :
    parse wCli7 [] = .error "`olive` requires a subcommand" :=
  (claim7_requires_subcommand wCli7 [] (initState wCli7) ⟨wCli7, emptyFrame⟩ []
    rfl rfl).2.1 ⟨by decide, rfl⟩

/-! ## Claim C8 -/

/-- C8: a selector (enumerated-string) argument rejects a supplied raw
value outside its configured legal set with an unknown-value error
whose shape does not depend on the installed validator in any way —
the validator is not invoked at all, which the universal
quantification over validators expresses — and this failure aborts an
attempted argument-setting step of the parse; a raw value inside the
legal set is passed to the validator when one is set, whose rejection
(or acceptance) decides the outcome. -/
theorem claim8_selector_argument (b : ArgBase) (pv : List String)
    (validator : Option (String → Option String)) (val : String) :
    (val ∉ pv →
      Argument.checkValue (.selectorArg b pv validator) val =
        .error ("`" ++ val ++ "` is not a valid value for argument [" ++ b.name ++ "]")) ∧
    (val ∈ pv →
      Argument.checkValue (.selectorArg b pv validator) val =
        (match validator with
         | some vd =>
           match vd val with
           | some err => .error err
           | none => .ok (Value.vStr val)
         | none => .ok (Value.vStr val))) ∧
    (∀ (st : ParserState) (i : Nat) (e : Entry), st.stack.get? i = some e →
      lookupKey e.frame.arguments (Argument.name (.selectorArg b pv validator)) = none →
      val ∉ pv →
      setArgAt st i (.selectorArg b pv validator) val =
        .error ("`" ++ val ++ "` is not a valid value for argument [" ++ b.name ++ "]")) := by
  refine ⟨?_, ?_, ?_⟩
  · intro hnot
    simp only [Argument.checkValue]
    rw [if_neg hnot]
  · intro hmem
    simp only [Argument.checkValue]
    rw [if_pos hmem]
  · intro st i e hget hnone hnot
    rw [setArgAt, setArgInStack_checkErr hget hnone
      (by simp only [Argument.checkValue]; rw [if_neg hnot])]

/-- witness for C8: the spec's example — selector `sel` with legal
values val1/val2 rejects val3 with the unknown-value error even though
the installed validator would reject everything with a different
message. -/
theorem claim8_witness :
    Argument.checkValue
      (.selectorArg ⟨"sel", "se", "", true, none⟩ ["val1", "val2"]
        (some fun _ => some "validator rejected")) "val3" =
      .error "`val3` is not a valid value for argument [sel]" :=
  ((claim8_selector_argument ⟨"sel", "se", "", true, none⟩ ["val1", "val2"]
    (some fun _ => some "validator rejected") "val3").1 (by decide)).trans rfl

/-! ## Claim C9 -/

/-- C9: calling the ParseArgs entry point with an empty token list
panics with a slice-bounds violation while discarding the conventional
program-name token (modelled as the crashed outcome) instead of
returning an error value; every call with at least one token proceeds
normally, parsing the list with its first token removed. -/
theorem claim9_parse_entry_empty_args :
    (∀ cli : Command, ParseArgs cli [] =
      .crashed "runtime error: slice bounds out of range [1:0]") ∧
    (∀ (cli : Command) (t : String) (rest : List String),
      ParseArgs cli (t :: rest) = .returned (parse cli rest)) :=
  ⟨fun _ => rfl, fun _ _ _ => rfl⟩

/-! ## Claim C10: agreement relations

Two trees related by `CommandAgree` are identical except for the
`required` flags stored in their arguments and primary arguments.
Showing that parsing cannot distinguish related trees shows the parser
never enforces (or even reads) required-ness. -/

inductive ArgAgree : Argument → Argument → Prop where
  | intA (b : ArgBase) (r : Bool) (v : Option (Int → Option String)) :
      ArgAgree (.intArg b v) (.intArg { b with required := r } v)
  | floatA (b : ArgBase) (r : Bool) (v : Option (String → Option String)) :
      ArgAgree (.floatArg b v) (.floatArg { b with required := r } v)
  | strA (b : ArgBase) (r : Bool) (v : Option (String → Option String)) :
      ArgAgree (.strArg b v) (.strArg { b with required := r } v)
  | selA (b : ArgBase) (r : Bool) (pv : List String) (v : Option (String → Option String)) :
      ArgAgree (.selectorArg b pv v) (.selectorArg { b with required := r } pv v)

inductive PrimAgree : Option PrimaryArgument → Option PrimaryArgument → Prop where
  | bothNone : PrimAgree none none
  | bothSome (n d : String) (r r' : Bool) : PrimAgree (some ⟨n, d, r⟩) (some ⟨n, d, r'⟩)

inductive ArgsAgree : List (String × Argument) → List (String × Argument) → Prop where
  | nil : ArgsAgree [] []
  | cons (n : String) (a a' : Argument) (rest rest' : List (String × Argument))
      (ha : ArgAgree a a') (hrest : ArgsAgree rest rest') :
      ArgsAgree ((n, a) :: rest) ((n, a') :: rest')

mutual
inductive CommandAgree : Command → Command → Prop where
  | intro (n ds : String) (rs : Bool) (fl fls : List (String × Flag))
      (args args' argsS argsS' : List (String × Argument))
      (pa pa' : Option PrimaryArgument) (subs subs' : List (String × Command))
      (hargs : ArgsAgree args args') (hargsS : ArgsAgree argsS argsS')
      (hpa : PrimAgree pa pa') (hsubs : SubsAgree subs subs') :
      CommandAgree (.mk n ds rs fl fls args argsS pa subs)
        (.mk n ds rs fl fls args' argsS' pa' subs')

inductive SubsAgree : List (String × Command) → List (String × Command) → Prop where
  | nil : SubsAgree [] []
  | cons (n : String) (c c' : Command) (rest rest' : List (String × Command))
      (hc : CommandAgree c c') (hrest : SubsAgree rest rest') :
      SubsAgree ((n, c) :: rest) ((n, c') :: rest')
end

inductive EntriesAgree : List Entry → List Entry → Prop where
  | nil : EntriesAgree [] []
  | cons (e e' : Entry) (rest rest' : List Entry)
      (hc : CommandAgree e.cmd e'.cmd) (hf : e.frame = e'.frame)
      (hrest : EntriesAgree rest rest') : EntriesAgree (e :: rest) (e' :: rest')

def StateAgree (s s' : ParserState) : Prop :=
  EntriesAgree s.stack s'.stack ∧ s.events = s'.events ∧
    s.allowSubcommands = s'.allowSubcommands

/-- relates two Except computations: same error, or related values. -/
inductive ExceptRel {α β : Type} (R : α → β → Prop) :
    Except String α → Except String β → Prop where
  | err (msg : String) : ExceptRel R (.error msg) (.error msg)
  | val {a : α} {b : β} : R a b → ExceptRel R (.ok a) (.ok b)

theorem ArgAgree.argName_eq {a a' : Argument} (h : ArgAgree a a') : a.name = a'.name := by
  cases h <;> rfl

theorem ArgAgree.default_eq {a a' : Argument} (h : ArgAgree a a') :
    a.getDefaultValue = a'.getDefaultValue := by
  cases h <;> rfl

theorem ArgAgree.checkValue_eq {a a' : Argument} (h : ArgAgree a a') (val : String) :
    a.checkValue val = a'.checkValue val := by
  cases h <;> rfl

theorem CommandAgree.flags_eq {c c' : Command} (h : CommandAgree c c') :
    c.flags = c'.flags := by
  cases h; rfl

theorem CommandAgree.flagsShort_eq {c c' : Command} (h : CommandAgree c c') :
    c.flagsByShortName = c'.flagsByShortName := by
  cases h; rfl

theorem CommandAgree.cmdName_eq {c c' : Command} (h : CommandAgree c c') :
    c.name = c'.name := by
  cases h; rfl

theorem CommandAgree.requires_eq {c c' : Command} (h : CommandAgree c c') :
    c.requiresSubcommand = c'.requiresSubcommand := by
  cases h; rfl

theorem CommandAgree.args_agree {c c' : Command} (h : CommandAgree c c') :
    ArgsAgree c.args c'.args := by
  cases h with
  | intro _ _ _ _ _ _ _ _ _ _ _ _ _ hargs _ _ _ => exact hargs

theorem CommandAgree.argsShort_agree {c c' : Command} (h : CommandAgree c c') :
    ArgsAgree c.argsByShortName c'.argsByShortName := by
  cases h with
  | intro _ _ _ _ _ _ _ _ _ _ _ _ _ _ hargsS _ _ => exact hargsS

theorem CommandAgree.prim_agree {c c' : Command} (h : CommandAgree c c') :
    PrimAgree c.primaryArg c'.primaryArg := by
  cases h with
  | intro _ _ _ _ _ _ _ _ _ _ _ _ _ _ _ hpa _ => exact hpa

theorem CommandAgree.subs_agree {c c' : Command} (h : CommandAgree c c') :
    SubsAgree c.subcommands c'.subcommands := by
  cases h with
  | intro _ _ _ _ _ _ _ _ _ _ _ _ _ _ _ _ hsubs => exact hsubs

theorem PrimAgree.isSome_eq {p p' : Option PrimaryArgument} (h : PrimAgree p p') :
    p.isSome = p'.isSome := by
  cases h <;> rfl

theorem SubsAgree.length_eq {l l' : List (String × Command)} (h : SubsAgree l l') :
    l.length = l'.length := by
  induction l generalizing l' with
  | nil => cases h; rfl
  | cons p rest ih =>
    cases h with
    | cons n c c' rest₀ rest' hc hrest => simp [ih hrest]

theorem SubsAgree.lookup_subs {l l' : List (String × Command)} (h : SubsAgree l l')
    (n : String) :
    (lookupKey l n = none ∧ lookupKey l' n = none) ∨
    (∃ c c', lookupKey l n = some c ∧ lookupKey l' n = some c' ∧ CommandAgree c c') := by
  induction l generalizing l' with
  | nil =>
    cases h
    exact Or.inl ⟨rfl, rfl⟩
  | cons p rest ih =>
    cases h with
    | cons m c c' rest₀ rest' hc hrest =>
      by_cases hm : m = n
      · subst hm
        exact Or.inr ⟨c, c', by simp [lookupKey], by simp [lookupKey], hc⟩
      · rcases ih hrest with ⟨h1, h2⟩ | ⟨d, d', h1, h2, hd⟩
        · exact Or.inl ⟨by simp [lookupKey, hm, h1], by simp [lookupKey, hm, h2]⟩
        · exact Or.inr ⟨d, d', by simp [lookupKey, hm, h1], by simp [lookupKey, hm, h2], hd⟩

theorem ArgsAgree.lookup_args {l l' : List (String × Argument)} (h : ArgsAgree l l')
    (n : String) :
    (lookupKey l n = none ∧ lookupKey l' n = none) ∨
    (∃ a a', lookupKey l n = some a ∧ lookupKey l' n = some a' ∧ ArgAgree a a') := by
  induction h with
  | nil => exact Or.inl ⟨rfl, rfl⟩
  | cons m a a' rest rest' ha hrest ih =>
    by_cases hm : m = n
    · subst hm
      exact Or.inr ⟨a, a', by simp [lookupKey], by simp [lookupKey], ha⟩
    · rcases ih with ⟨h1, h2⟩ | ⟨d, d', h1, h2, hd⟩
      · exact Or.inl ⟨by simp [lookupKey, hm, h1], by simp [lookupKey, hm, h2]⟩
      · exact Or.inr ⟨d, d', by simp [lookupKey, hm, h1], by simp [lookupKey, hm, h2], hd⟩

theorem findFirst?_flags_eq {l l' : List Entry} (h : EntriesAgree l l')
    (lu : Command → List (String × Flag))
    (hlu : ∀ {c c' : Command}, CommandAgree c c' → lu c = lu c') (n : String) :
    findFirst? (fun e => lookupKey (lu e.cmd) n) l =
      findFirst? (fun e => lookupKey (lu e.cmd) n) l' := by
  induction h with
  | nil => rfl
  | cons e e' rest rest' hc hf hrest ih =>
    simp only [findFirst?]
    rw [hlu hc, ih]

theorem findFirst?_args_rel {l l' : List Entry} (h : EntriesAgree l l')
    (lu : Command → List (String × Argument))
    (hlu : ∀ {c c' : Command}, CommandAgree c c' → ArgsAgree (lu c) (lu c')) (n : String) :
    (findFirst? (fun e => lookupKey (lu e.cmd) n) l = none ∧
     findFirst? (fun e => lookupKey (lu e.cmd) n) l' = none) ∨
    (∃ i a a', findFirst? (fun e => lookupKey (lu e.cmd) n) l = some (i, a) ∧
      findFirst? (fun e => lookupKey (lu e.cmd) n) l' = some (i, a') ∧ ArgAgree a a') := by
  induction h with
  | nil => exact Or.inl ⟨rfl, rfl⟩
  | cons e e' rest rest' hc hf hrest ih =>
    rcases (hlu hc).lookup_args n with ⟨h1, h2⟩ | ⟨a, a', h1, h2, ha⟩
    · rcases ih with ⟨hr1, hr2⟩ | ⟨i, a, a', hr1, hr2, ha⟩
      · exact Or.inl ⟨by simp [findFirst?, h1, hr1], by simp [findFirst?, h2, hr2]⟩
      · exact Or.inr ⟨i + 1, a, a', by simp [findFirst?, h1, hr1],
          by simp [findFirst?, h2, hr2], ha⟩
    · exact Or.inr ⟨0, a, a', by simp [findFirst?, h1], by simp [findFirst?, h2], ha⟩

theorem setFlagInStack_agree {f : Flag} {i : Nat} {l l' : List Entry}
    (h : EntriesAgree l l') :
    ExceptRel EntriesAgree (setFlagInStack f i l) (setFlagInStack f i l') := by
  induction h generalizing i with
  | nil => cases i <;> exact ExceptRel.err _
  | cons e e' rest rest' hc hf hrest ih =>
    cases i with
    | zero =>
      simp only [setFlagInStack, hf]
      by_cases hmem : f.name ∈ e'.frame.flags
      · rw [if_pos hmem, if_pos hmem]
        exact ExceptRel.err _
      · rw [if_neg hmem, if_neg hmem]
        refine ExceptRel.val (EntriesAgree.cons _ _ _ _ hc ?_ hrest)
        simp [hf]
    | succ i' =>
      simp only [setFlagInStack]
      have hrec := @ih i'
      cases h1 : setFlagInStack f i' rest with
      | error msg =>
        cases h2 : setFlagInStack f i' rest' with
        | error msg' =>
          rw [h1, h2] at hrec
          cases hrec
          exact ExceptRel.err _
        | ok stk' =>
          rw [h1, h2] at hrec
          cases hrec
      | ok stk =>
        cases h2 : setFlagInStack f i' rest' with
        | error msg' =>
          rw [h1, h2] at hrec
          cases hrec
        | ok stk' =>
          rw [h1, h2] at hrec
          cases hrec with
          | val hrel => exact ExceptRel.val (EntriesAgree.cons _ _ _ _ hc hf hrel)

theorem setArgInStack_agree {a a' : Argument} (ha : ArgAgree a a') {v : String} {i : Nat}
    {l l' : List Entry} (h : EntriesAgree l l') :
    ExceptRel EntriesAgree (setArgInStack a v i l) (setArgInStack a' v i l') := by
  induction h generalizing i with
  | nil => cases i <;> exact ExceptRel.err _
  | cons e e' rest rest' hc hf hrest ih =>
    cases i with
    | zero =>
      simp only [setArgInStack, hf, ha.argName_eq, ha.checkValue_eq v]
      by_cases hmem : (lookupKey e'.frame.arguments a'.name).isSome
      · rw [if_pos hmem, if_pos hmem]
        exact ExceptRel.err _
      · rw [if_neg hmem, if_neg hmem]
        cases hchk : a'.checkValue v with
        | error msg => exact ExceptRel.err _
        | ok w =>
          refine ExceptRel.val (EntriesAgree.cons _ _ _ _ hc ?_ hrest)
          simp [hf]
    | succ i' =>
      simp only [setArgInStack]
      have hrec := @ih i'
      cases h1 : setArgInStack a v i' rest with
      | error msg =>
        cases h2 : setArgInStack a' v i' rest' with
        | error msg' =>
          rw [h1, h2] at hrec
          cases hrec
          exact ExceptRel.err _
        | ok stk' =>
          rw [h1, h2] at hrec
          cases hrec
      | ok stk =>
        cases h2 : setArgInStack a' v i' rest' with
        | error msg' =>
          rw [h1, h2] at hrec
          cases hrec
        | ok stk' =>
          rw [h1, h2] at hrec
          cases hrec with
          | val hrel => exact ExceptRel.val (EntriesAgree.cons _ _ _ _ hc hf hrel)

theorem setFlagAt_agree {s s' : ParserState} (h : StateAgree s s') (i : Nat) (f : Flag) :
    ExceptRel StateAgree (setFlagAt s i f) (setFlagAt s' i f) := by
  obtain ⟨hstk, hev, hal⟩ := h
  simp only [setFlagAt]
  have hrec := @setFlagInStack_agree f i _ _ hstk
  cases h1 : setFlagInStack f i s.stack with
  | error msg =>
    cases h2 : setFlagInStack f i s'.stack with
    | error msg' =>
      rw [h1, h2] at hrec
      cases hrec
      exact ExceptRel.err _
    | ok stk' =>
      rw [h1, h2] at hrec
      cases hrec
  | ok stk =>
    cases h2 : setFlagInStack f i s'.stack with
    | error msg' =>
      rw [h1, h2] at hrec
      cases hrec
    | ok stk' =>
      rw [h1, h2] at hrec
      cases hrec with
      | val hrel => exact ExceptRel.val ⟨hrel, by simp [hev], by simp [hal]⟩

theorem setArgAt_agree {s s' : ParserState} (h : StateAgree s s') (i : Nat)
    {a a' : Argument} (ha : ArgAgree a a') (v : String) :
    ExceptRel StateAgree (setArgAt s i a v) (setArgAt s' i a' v) := by
  obtain ⟨hstk, hev, hal⟩ := h
  simp only [setArgAt]
  have hrec := @setArgInStack_agree _ _ ha v i _ _ hstk
  cases h1 : setArgInStack a v i s.stack with
  | error msg =>
    cases h2 : setArgInStack a' v i s'.stack with
    | error msg' =>
      rw [h1, h2] at hrec
      cases hrec
      exact ExceptRel.err _
    | ok stk' =>
      rw [h1, h2] at hrec
      cases hrec
  | ok stk =>
    cases h2 : setArgInStack a' v i s'.stack with
    | error msg' =>
      rw [h1, h2] at hrec
      cases hrec
    | ok stk' =>
      rw [h1, h2] at hrec
      cases hrec with
      | val hrel => exact ExceptRel.val ⟨hrel, by simp [hev], by simp [hal]⟩

theorem consume_agree {s s' : ParserState} (h : StateAgree s s') (tok : String) :
    ExceptRel StateAgree (consume s tok) (consume s' tok) := by
  obtain ⟨stk, ev, al⟩ := s
  obtain ⟨stk', ev', al'⟩ := s'
  obtain ⟨hstk, hev, hal⟩ := h
  simp only at hstk hev hal
  subst hev
  subst hal
  cases hstk with
  | nil => exact ExceptRel.err _
  | cons top top' rest rest' hc hf hrest =>
    have hagree : EntriesAgree (top :: rest) (top' :: rest') :=
      EntriesAgree.cons _ _ _ _ hc hf hrest
    by_cases hdd : isDoubleDashTok tok
    · rw [consume_ddash ⟨top :: rest, ev, al⟩ tok top rest rfl hdd,
        consume_ddash ⟨top' :: rest', ev, al⟩ tok top' rest' rfl hdd]
      by_cases hemp : (extractComponents tok).2 = ""
      · rw [if_pos hemp, if_pos hemp]
        have heq := findFirst?_flags_eq hagree Command.flags
          (fun hcc => hcc.flags_eq) (extractComponents tok).1
        simp only at heq ⊢
        rw [heq]
        have hsa : StateAgree ⟨top :: rest, ev, false⟩ ⟨top' :: rest', ev, false⟩ :=
          ⟨hagree, rfl, rfl⟩
        cases hff : findFirst? (fun e => lookupKey e.cmd.flags (extractComponents tok).1)
            (top' :: rest') with
        | none => exact ExceptRel.err _
        | some q =>
          obtain ⟨i, f⟩ := q
          exact setFlagAt_agree hsa i f
      · rw [if_neg hemp, if_neg hemp]
        rcases findFirst?_args_rel hagree Command.args
            (fun hcc => hcc.args_agree) (extractComponents tok).1 with
          ⟨h1, h2⟩ | ⟨i, a, a', h1, h2, ha⟩
        · simp only at h1 h2 ⊢
          rw [h1, h2]
          exact ExceptRel.err _
        · simp only at h1 h2 ⊢
          rw [h1, h2]
          have hsa : StateAgree ⟨top :: rest, ev, false⟩ ⟨top' :: rest', ev, false⟩ :=
            ⟨hagree, rfl, rfl⟩
          exact setArgAt_agree hsa i ha (extractComponents tok).2
    · by_cases hsd : isDashTok tok
      · rw [consume_sdash ⟨top :: rest, ev, al⟩ tok top rest rfl (by simpa using hdd) hsd,
          consume_sdash ⟨top' :: rest', ev, al⟩ tok top' rest' rfl (by simpa using hdd) hsd]
        by_cases hemp : (extractComponents tok).2 = ""
        · rw [if_pos hemp, if_pos hemp]
          have heq := findFirst?_flags_eq hagree Command.flagsByShortName
            (fun hcc => hcc.flagsShort_eq) (extractComponents tok).1
          simp only at heq ⊢
          rw [heq]
          have hsa : StateAgree ⟨top :: rest, ev, false⟩ ⟨top' :: rest', ev, false⟩ :=
            ⟨hagree, rfl, rfl⟩
          cases hff : findFirst?
              (fun e => lookupKey e.cmd.flagsByShortName (extractComponents tok).1)
              (top' :: rest') with
          | none => exact ExceptRel.err _
          | some q =>
            obtain ⟨i, f⟩ := q
            exact setFlagAt_agree hsa i f
        · rw [if_neg hemp, if_neg hemp]
          rcases findFirst?_args_rel hagree Command.argsByShortName
              (fun hcc => hcc.argsShort_agree) (extractComponents tok).1 with
            ⟨h1, h2⟩ | ⟨i, a, a', h1, h2, ha⟩
          · simp only at h1 h2 ⊢
            rw [h1, h2]
            exact ExceptRel.err _
          · simp only at h1 h2 ⊢
            rw [h1, h2]
            have hsa : StateAgree ⟨top :: rest, ev, false⟩ ⟨top' :: rest', ev, false⟩ :=
              ⟨hagree, rfl, rfl⟩
            exact setArgAt_agree hsa i ha (extractComponents tok).2
      · rw [consume_bare ⟨top :: rest, ev, al⟩ tok top rest rfl (by simpa using hsd),
          consume_bare ⟨top' :: rest', ev, al⟩ tok top' rest' rfl (by simpa using hsd)]
        have hps := (hc.prim_agree).isSome_eq
        by_cases hprim : (top.cmd.primaryArg).isSome
        · have hprim' : (top'.cmd.primaryArg).isSome = true := by
            rw [← hps]
            exact hprim
          rw [if_pos hprim, if_pos hprim']
          rw [hf, hc.cmdName_eq]
          by_cases hset : top'.frame.primaryArg ≠ ""
          · rw [if_pos hset, if_pos hset]
            exact ExceptRel.err _
          · rw [if_neg hset, if_neg hset]
            refine ExceptRel.val ⟨EntriesAgree.cons _ _ _ _ hc (by simp [hf]) hrest, rfl, rfl⟩
        · have hprim' : ¬(top'.cmd.primaryArg).isSome = true := by
            rw [← hps]
            exact hprim
          rw [if_neg hprim, if_neg hprim']
          by_cases hallow : al = true
          · rw [if_pos hallow, if_pos hallow]
            rcases (hc.subs_agree).lookup_subs tok with ⟨h1, h2⟩ | ⟨sub, sub', h1, h2, hsub⟩
            · rw [h1, h2]
              exact ExceptRel.err _
            · rw [h1, h2]
              refine ExceptRel.val ⟨?_, rfl, rfl⟩
              refine EntriesAgree.cons _ _ _ _ hsub rfl ?_
              refine EntriesAgree.cons _ _ _ _ hc ?_ hrest
              simp [hf, hsub.cmdName_eq]
          · rw [if_neg hallow, if_neg hallow]
            exact ExceptRel.err _

theorem consumeAll_agree {toks : List String} {s s' : ParserState} (h : StateAgree s s') :
    ExceptRel StateAgree (consumeAll s toks) (consumeAll s' toks) := by
  induction toks generalizing s s' with
  | nil => exact ExceptRel.val h
  | cons t rest ih =>
    rw [consumeAll, consumeAll]
    have hrec := consume_agree h t
    cases h1 : consume s t with
    | error msg =>
      cases h2 : consume s' t with
      | error msg' =>
        rw [h1, h2] at hrec
        cases hrec
        exact ExceptRel.err _
      | ok s₁' =>
        rw [h1, h2] at hrec
        cases hrec
    | ok s₁ =>
      cases h2 : consume s' t with
      | error msg' =>
        rw [h1, h2] at hrec
        cases hrec
      | ok s₁' =>
        rw [h1, h2] at hrec
        cases hrec with
        | val hrel => exact ih hrel

theorem addDefaults_agree {args args' : List (String × Argument)} (h : ArgsAgree args args')
    (ex : List (String × Value)) : addDefaults ex args = addDefaults ex args' := by
  induction h generalizing ex with
  | nil => rfl
  | cons n a a' rest rest' ha hrest ih =>
    simp only [addDefaults, ha.default_eq, ha.argName_eq]
    cases hd : a'.getDefaultValue with
    | none => exact ih ex
    | some d =>
      by_cases hex : (lookupKey ex a'.name).isSome
      · simp only [if_pos hex]
        exact ih ex
      · simp only [if_neg hex]
        exact ih (ex ++ [(a'.name, d)])

theorem fillDefaults_frames_eq {l l' : List Entry} (h : EntriesAgree l l') :
    (l.map fillDefaultsEntry).map Entry.frame =
      (l'.map fillDefaultsEntry).map Entry.frame := by
  induction h with
  | nil => rfl
  | cons e e' rest rest' hc hf hrest ih =>
    simp only [List.map_cons, ih, List.cons.injEq, and_true]
    simp [fillDefaultsEntry, hf, addDefaults_agree hc.args_agree]

theorem assembleRootFirst_congr {l l' : List Entry}
    (h : l.map Entry.frame = l'.map Entry.frame) :
    assembleRootFirst l = assembleRootFirst l' := by
  induction l generalizing l' with
  | nil =>
    cases l' with
    | nil => rfl
    | cons e' rest' => simp at h
  | cons e rest ih =>
    cases l' with
    | nil => simp at h
    | cons e' rest' =>
      simp only [List.map_cons, List.cons.injEq] at h
      rw [assembleRootFirst, assembleRootFirst, h.1, ih h.2]

/-! ## Claim C10 -/

/-- C10: the parsing engine never enforces — or even reads — the
required flag of named arguments and primary arguments: parsing any
token list against two command trees identical except for their
required flags yields literally the same outcome, so omitting an
argument constructed with required true never by itself causes a parse
error (the result simply lacks a value or receives the default exactly
as with required false); the Required accessor merely reads the stored
field for display purposes. -/
theorem claim10_required_not_enforced (c c' : Command) (toks : List String)
    (hagree : CommandAgree c c') :
    parse c toks = parse c' toks ∧
    (∀ a : Argument, a.argRequired = a.base.required) := by
  refine ⟨?_, fun a => rfl⟩
  have hinit : StateAgree (initState c) (initState c') :=
    ⟨EntriesAgree.cons _ _ _ _ hagree rfl EntriesAgree.nil, rfl, rfl⟩
  have hca : ExceptRel StateAgree (consumeAll (initState c) toks)
      (consumeAll (initState c') toks) := consumeAll_agree hinit
  cases h1 : consumeAll (initState c) toks with
  | error msg =>
    cases h2 : consumeAll (initState c') toks with
    | error msg' =>
      rw [h1, h2] at hca
      cases hca
      rw [parse.eq_def, parse.eq_def, h1, h2]
    | ok st' =>
      rw [h1, h2] at hca
      cases hca
  | ok st =>
    cases h2 : consumeAll (initState c') toks with
    | error msg' =>
      rw [h1, h2] at hca
      cases hca
    | ok st' =>
      rw [h1, h2] at hca
      cases hca with
      | val hrel =>
        obtain ⟨hstk, hev, hal⟩ := hrel
        rw [parse.eq_def, parse.eq_def, h1, h2]
        simp only []
        cases hs : st.stack with
        | nil =>
          cases hs' : st'.stack with
          | nil => rfl
          | cons top' rest' =>
            rw [hs, hs'] at hstk
            cases hstk
        | cons top rest =>
          cases hs' : st'.stack with
          | nil =>
            rw [hs, hs'] at hstk
            cases hstk
          | cons top' rest' =>
            rw [hs, hs'] at hstk
            simp only [hs, hs']
            cases hstk with
            | cons _ _ _ _ hc hf hrest =>
              have hframes : (st.stack.map fillDefaultsEntry).reverse.map Entry.frame =
                  (st'.stack.map fillDefaultsEntry).reverse.map Entry.frame := by
                rw [List.map_reverse, List.map_reverse,
                  fillDefaults_frames_eq (hs ▸ hs' ▸ EntriesAgree.cons _ _ _ _ hc hf hrest)]
              by_cases hcond : 0 < top.cmd.subcommands.length ∧
                  top.cmd.requiresSubcommand = true
              · have hcond' : 0 < top'.cmd.subcommands.length ∧
                    top'.cmd.requiresSubcommand = true := by
                  rw [← (hc.subs_agree).length_eq, ← hc.requires_eq]
                  exact hcond
                rw [if_pos hcond, if_pos hcond', hc.cmdName_eq]
              · have hcond' : ¬(0 < top'.cmd.subcommands.length ∧
                    top'.cmd.requiresSubcommand = true) := by
                  rw [← (hc.subs_agree).length_eq, ← hc.requires_eq]
                  exact hcond
                rw [if_neg hcond, if_neg hcond']
                rw [← hs, ← hs', assembleRootFirst_congr hframes]

/-- the C10 witness pair: the C1 example tree and the same tree with
the integer argument marked required. -/
def wIntArgReq : Argument := .intArg ⟨"int", "i", "", true, some (Value.vInt 0)⟩ none

def wCli10 : Command :=
  .mk "olive" "" true [("flag1", wFlag1)] [("f1", wFlag1)]
    [("int", wIntArgReq)] [("i", wIntArgReq)] none []

theorem wCli10_agree : CommandAgree wCli1 wCli10 := by
  have harg : ArgAgree wIntArg wIntArgReq :=
    ArgAgree.intA ⟨"int", "i", "", false, some (Value.vInt 0)⟩ true none
  exact CommandAgree.intro "olive" "" true [("flag1", wFlag1)] [("f1", wFlag1)]
    [("int", wIntArg)] [("int", wIntArgReq)] [("i", wIntArg)] [("i", wIntArgReq)]
    none none [] []
    (ArgsAgree.cons "int" wIntArg wIntArgReq [] [] harg ArgsAgree.nil)
    (ArgsAgree.cons "i" wIntArg wIntArgReq [] [] harg ArgsAgree.nil)
    PrimAgree.bothNone SubsAgree.nil

/-- witness for C10: marking the integer argument required changes no
parse outcome; in particular a token list omitting it still parses to
the same successful result. -/
theorem claim10_witness :
    parse wCli1 ["--flag1"] = parse wCli10 ["--flag1"] :=
  (claim10_required_not_enforced wCli1 wCli10 ["--flag1"] wCli10_agree).1

end Olive
